import Mathlib

/-!
Shallow embedding of the label-resolution and loading logic of the
geonode-agrovoc-importer repository (two Django management commands:
`load_agrovoc_thesaurus.py` and `load_gemet_thesaurus.py`), together with
theorems settling the claims about it.

Modelling conventions:
* An rdflib `Literal` is a `Lit`: its string value and optional language tag.
* The parsed RDF graph is represented by the query results the commands
  consume (`AgrovocGraph`, `GemetGraph`): the sources delegate parsing to
  rdflib and only use `g.value`, `g.objects`, `g.subjects`.
* The persistence sink is modelled by save-outcome oracles
  (`ThesaurusRec → Bool`, `TKRec → Bool`, `TKLRec → Bool`): `true` means the
  `save()` call succeeds, `false` means it raises an integrity error.
* Python's `str.lower()` is embedded as `String.toLower`.
* A run returns the persisted records, the record objects constructed
  (constructed even in dry-run; `save()` alone is guarded by `store`),
  the log lines written, and an optional fatal error (an uncaught
  exception aborting the run).
-/

/-- An rdflib language-tagged literal: its text and optional language tag. -/
structure Lit where
  text : String
  language : Option String
deriving DecidableEq, Repr

/-- ASCII lower-casing of one character, embedding the effect of Python's
`str.lower()` on the character sets exercised here (code points 65-90 map
to 97-122, everything else is unchanged). -/
def charLower (c : Char) : Char :=
  if 65 ≤ c.toNat ∧ c.toNat ≤ 90 then Char.ofNat (c.toNat + 32) else c

/-- Python's `value.lower()`: lower-case every character. -/
def strLower (s : String) : String :=
  ⟨s.data.map charLower⟩

/-- Lexicographic code-point comparison of character lists, embedding
Python's string ordering used by `sorted`. -/
def charListLE : List Char → List Char → Bool
  | [], _ => true
  | _ :: _, [] => false
  | a :: as, b :: bs =>
    if a < b then true
    else if b < a then false
    else charListLE as bs

/-- Python string comparison `a <= b` (lexicographic by code point). -/
def strLE (a b : String) : Bool :=
  charListLE a.data b.data

/-- `__apply_lower_case__(value, lower_case)` on a plain string
(both source files, identical definition). -/
def apply_lower_case (value : String) (lower_case : Bool) : String :=
  if lower_case then strLower value else value

/-- `__apply_lower_case__(pref_label.language, lower_case)` where the language
tag may be Python `None`: `None.lower()` raises `AttributeError`, modelled by
`Except.error`.  Without case folding the value is returned unchanged. -/
def apply_lower_case_opt (value : Option String) (lower_case : Bool) :
    Except String (Option String) :=
  if lower_case then
    match value with
    | none => Except.error "AttributeError: NoneType has no attribute lower"
    | some s => Except.ok (some (strLower s))
  else Except.ok value

instance {e a : Type} [DecidableEq e] [DecidableEq a] : DecidableEq (Except e a) := fun x y =>
  match x, y with
  | Except.ok u, Except.ok v =>
    if h : u = v then Decidable.isTrue (by rw [h]) else Decidable.isFalse (by simp [h])
  | Except.error u, Except.error v =>
    if h : u = v then Decidable.isTrue (by rw [h]) else Decidable.isFalse (by simp [h])
  | Except.ok _, Except.error _ => Decidable.isFalse (by simp)
  | Except.error _, Except.ok _ => Decidable.isFalse (by simp)

/-- `SUPPORTED_LANGUAGES = ["fr", "de", "en", "it", "es"]` (both files). -/
def SUPPORTED_LANGUAGES : List String := ["fr", "de", "en", "it", "es"]

/-- Python `tag.split("-")[0]`: the primary subtag, i.e. the text before
the first hyphen (`"".split("-")[0] = ""`). -/
def primarySubtag (tag : String) : String :=
  ⟨tag.data.takeWhile (fun c => c != '-')⟩

/-- The sort key used by `value_for_language`:
`"" if literal.language is None else literal.language`. -/
def langKey (l : Lit) : String :=
  l.language.getD ""

/-- Stable insertion of a literal into a list sorted by `langKey`
(an element goes in front of the first element with a key not below its
own, so ties keep their original order, as Python's stable `sorted`). -/
def orderedInsertByLang (x : Lit) : List Lit → List Lit
  | [] => [x]
  | y :: ys => if strLE (langKey x) (langKey y) then x :: y :: ys else y :: orderedInsertByLang x ys

/-- `sorted(available, key=...)`: a stable sort by language tag with absent
tags treated as the empty string.  Python's `sorted` is stable, and any
stable sort by the same key produces the same list. -/
def sortByLangTag : List Lit → List Lit
  | [] => []
  | x :: xs => orderedInsertByLang x (sortByLangTag xs)

/-- The scan loop inside `value_for_language`: return the first literal that
is untagged, or whose primary subtag equals the requested language. -/
def value_for_language_scan (default_lang : String) : List Lit → Option String
  | [] => none
  | item :: rest =>
    match item.language with
    | none => some item.text
    | some tag =>
      if primarySubtag tag == default_lang then some item.text
      else value_for_language_scan default_lang rest

/-- `value_for_language(available, default_lang)` (identical in both files):
sort by language tag, scan for the first untagged or primary-subtag match,
else fall back to `str(available[0])`.  `none` models the `IndexError`
raised by `available[0]` on an empty input list. -/
def value_for_language (available : List Lit) (default_lang : String) : Option String :=
  let sorted_lang := sortByLangTag available
  match value_for_language_scan default_lang sorted_lang with
  | some v => some v
  | none => available.head?.map Lit.text

/-- The acceptance condition stated by the claim for the Language Selector:
the literal's tag is absent, or its primary subtag equals the target. -/
def acceptLang (default_lang : String) (item : Lit) : Bool :=
  match item.language with
  | none => true
  | some tag => primarySubtag tag == default_lang

/-- The Language Selector as the claim words it: the first literal of the
sorted list satisfying `acceptLang`, else the first element of the
original, unsorted input. -/
def value_for_language_claimed (available : List Lit) (default_lang : String) :
    Option String :=
  match (sortByLangTag available).find? (acceptLang default_lang) with
  | some l => some l.text
  | none => available.head?.map Lit.text

/-- A SKOS-XL `prefLabel` target node, carrying the result of
`g.value(label, SKOS_XL.literalForm, None)`: the attached literal-form
literal, or `none` when the node has no literal form. -/
structure XLLabel where
  literalForm : Option Lit
deriving DecidableEq, Repr

/-- `Literal(g.value(label, SKOS_XL.literalForm, None))`: rdflib's
`Literal(x)` keeps language and text when `x` is already a `Literal`;
`Literal(None)` is the literal with text `"None"` (Python `str(None)`)
and no language tag. -/
def wrapLiteral : Option Lit → Lit
  | some l => l
  | none => { text := "None", language := none }

/-- `get_default_language_preflabel(g, concept, default_lang)`
(`load_agrovoc_thesaurus.py` lines 260-268): scan the concept's SKOS-XL
`prefLabel` targets and return the text of the first whose literal-form
language tag equals `default_lang` exactly; `none` when no tag matches. -/
def get_default_language_preflabel (default_lang : String) :
    List XLLabel → Option String
  | [] => none
  | label :: rest =>
    let pref_label := wrapLiteral label.literalForm
    if pref_label.language == some default_lang then some pref_label.text
    else get_default_language_preflabel default_lang rest

/-- One of the two label properties consulted by `preferredLabel`. -/
inductive LabelProp where
  | skosPrefLabel
  | rdfsLabel
deriving DecidableEq, Repr

/-- The label literals attached to one subject, one list per label
property (`g.objects(subject, SKOS.prefLabel)` and
`g.objects(subject, RDFS.label)`). -/
structure SubjectLabels where
  prefLabels : List Lit
  rdfsLabels : List Lit
deriving DecidableEq, Repr

/-- `g.objects(subject, labelProp)` for the two label properties. -/
def labelsOf (s : SubjectLabels) : LabelProp → List Lit
  | LabelProp.skosPrefLabel => s.prefLabels
  | LabelProp.rdfsLabel => s.rdfsLabels

/-- The language filter set up by `preferredLabel`
(`load_gemet_thesaurus.py` lines 221-236): `none` means no filtering,
`some ""` keeps only untagged literals, `some lg` keeps literals whose tag
equals `lg` exactly. -/
def langfilter (lang : Option String) (l : Lit) : Bool :=
  match lang with
  | none => true
  | some "" => l.language.isNone
  | some lg => l.language == some lg

/-- The property loop of `preferredLabel` (lines 238-244): for each label
property in order, filter its literals by language; if the filtered list is
empty continue with the next property, else return its pairs; return the
default (the empty list) when no property yields a filtered literal. -/
def preferredLabelGo (s : SubjectLabels) (lang : Option String) :
    List LabelProp → List (LabelProp × Lit)
  | [] => []
  | p :: rest =>
    let labels := (labelsOf s p).filter (langfilter lang)
    if labels.isEmpty then preferredLabelGo s lang rest
    else labels.map (fun l => (p, l))

/-- `preferredLabel(g, subject, lang)` (`load_gemet_thesaurus.py` lines
197-244, copied from rdflib 6.1.1), with the default label-property order
`(SKOS.prefLabel, RDFS.label)` and the default empty result, as used by its
two call sites. -/
def preferredLabel (s : SubjectLabels) (lang : Option String) :
    List (LabelProp × Lit) :=
  preferredLabelGo s lang [LabelProp.skosPrefLabel, LabelProp.rdfsLabel]

/-- The persisted `Thesaurus` record: the fields the commands assign
(`identifier`, `description`, `title`, `about`, `date`). -/
structure ThesaurusRec where
  identifier : String
  description : String
  title : String
  about : String
  date : String
deriving DecidableEq, Repr

/-- The persisted `ThesaurusKeyword` record: its parent thesaurus, `about`
(the concept URI, optionally lower-cased) and `alt_label`. -/
structure TKRec where
  thesaurus : ThesaurusRec
  about : String
  alt_label : String
deriving DecidableEq, Repr

/-- The persisted `ThesaurusKeywordLabel` record: its parent keyword,
`lang` and `label`. -/
structure TKLRec where
  keyword : TKRec
  lang : String
  label : String
deriving DecidableEq, Repr

/-- One emitted log line: `self.stderr.write(self.style.SUCCESS(...))`,
`self.stderr.write(self.style.ERROR(...))`, or a bare Python `print`. -/
inductive LogEntry where
  | success (msg : String)
  | errorMsg (msg : String)
  | printed (msg : String)
deriving DecidableEq, Repr

/-- A parsed `xsd:dateTime` literal value; `isoformatNoTz` is
`value.toPython().replace(tzinfo=None).isoformat()`, the ISO-8601 string
with the timezone stripped (computed by Python's datetime library). -/
structure PyDateTime where
  isoformatNoTz : String
deriving DecidableEq, Repr

/-- One AGROVOC concept: a subject of `SKOS.inScheme AGROVOC_ConceptSchemeURI`,
with its URI and the targets of its SKOS-XL `prefLabel` relation. -/
structure AgrovocConcept where
  uri : String
  prefLabelNodes : List XLLabel
deriving DecidableEq, Repr

/-- The query results `load_agrovoc_thesaurus.py` reads from the parsed
graph: the `dcterms:modified` date of the AGROVOC scheme URI (`none` when
absent, in which case `g.value` returns the default `""`), the subjects
typed `skos:ConceptScheme`, the literal objects of the scheme subject, the
scheme's `dc:description`, and the concepts in the AGROVOC scheme. -/
structure AgrovocGraph where
  modified : Option PyDateTime
  schemes : List String
  schemeTitles : List Lit
  schemeDescription : Option String
  concepts : List AgrovocConcept
deriving DecidableEq, Repr

/-- The argument values handed to `Command.load_thesaurus` in the AGROVOC
command (besides `store`, which is `not dryrun`). -/
structure AgrovocOptions where
  name : String
  title : String
  description : String
  defaultlang : String
  lower_case : Bool
deriving DecidableEq, Repr

/-- One GEMET concept: a subject typed `skos:Concept`, with its URI and its
`skos:prefLabel` / `rdfs:label` literals. -/
structure GemetConcept where
  uri : String
  labels : SubjectLabels
deriving DecidableEq, Repr

/-- The query results `load_gemet_thesaurus.py` reads from the parsed
graph. -/
structure GemetGraph where
  schemes : List String
  schemeTitles : List Lit
  schemeDescription : Option String
  dateIssued : Option String
  concepts : List GemetConcept
deriving DecidableEq, Repr

/-- The argument values handed to `Command.load_thesaurus` in the GEMET
command. -/
structure GemetOptions where
  name : String
  defaultlang : String
  lower_case : Bool
deriving DecidableEq, Repr

/-- Output of the per-concept label loop of the AGROVOC command:
the `ThesaurusKeywordLabel` objects constructed, the ones whose `save()`
succeeded, the error log lines, the counter `i`, and the exception (if
any) that aborted the loop. -/
structure LabelLoopOut where
  created : List TKLRec
  persisted : List TKLRec
  logs : List LogEntry
  count : Nat
  err : Option String
deriving DecidableEq, Repr

/-- Output of the concept loop: persisted and constructed keywords and
labels, log lines, and the uncaught exception (if any) that aborted the
run. -/
structure ConceptLoopOut where
  keywords : List TKRec
  createdKeywords : List TKRec
  labels : List TKLRec
  createdLabels : List TKLRec
  logs : List LogEntry
  fatal : Option String
deriving DecidableEq, Repr

/-- The observable outcome of one `load_thesaurus` run: persisted records
per kind, constructed records, log lines, and the fatal error (uncaught
exception / CommandError) if the run aborted. -/
structure RunOut where
  thesauri : List ThesaurusRec
  keywords : List TKRec
  labels : List TKLRec
  createdKeywords : List TKRec
  createdLabels : List TKLRec
  logs : List LogEntry
  fatal : Option String
deriving DecidableEq, Repr

/-- The label loop of the AGROVOC command (`load_agrovoc_thesaurus.py`
lines 219-242): for each SKOS-XL `prefLabel` target, wrap its literal
form, case-fold the language tag if requested (`None.lower()` raises,
aborting the loop and the run, since no handler catches it), skip tags not
in `SUPPORTED_LANGUAGES` (a `None` tag is never in the list), otherwise
construct a `ThesaurusKeywordLabel`, bump `i`, and when `store` is set try
to save it, logging (not raising) on a failed save. -/
def agrovocLabelLoop (store lower_case : Bool) (labelSaveOk : TKLRec → Bool)
    (tk : TKRec) : List XLLabel → LabelLoopOut
  | [] => { created := [], persisted := [], logs := [], count := 0, err := none }
  | node :: rest =>
    let pref_label := wrapLiteral node.literalForm
    match apply_lower_case_opt pref_label.language lower_case with
    | Except.error e =>
      { created := [], persisted := [], logs := [], count := 0, err := some e }
    | Except.ok none =>
      -- `lang` is None: `None not in SUPPORTED_LANGUAGES`, so `continue`
      agrovocLabelLoop store lower_case labelSaveOk tk rest
    | Except.ok (some lang) =>
      if SUPPORTED_LANGUAGES.contains lang then
        let label := apply_lower_case pref_label.text lower_case
        let tkl : TKLRec := { keyword := tk, lang := lang, label := label }
        let tail := agrovocLabelLoop store lower_case labelSaveOk tk rest
        if store then
          if labelSaveOk tkl then
            { created := tkl :: tail.created, persisted := tkl :: tail.persisted,
              logs := tail.logs, count := tail.count + 1, err := tail.err }
          else
            { created := tkl :: tail.created, persisted := tail.persisted,
              logs := LogEntry.errorMsg
                  (s!"could not add label: {label} with language: {lang}) to database, skipping entry ...")
                :: tail.logs,
              count := tail.count + 1, err := tail.err }
        else
          { created := tkl :: tail.created, persisted := tail.persisted,
            logs := tail.logs, count := tail.count + 1, err := tail.err }
      else
        agrovocLabelLoop store lower_case labelSaveOk tk rest

/-- The concept loop of the AGROVOC command (lines 198-244).  A concept
without a default-language SKOS-XL prefLabel is skipped by
`if alt_label is None: continue` at line 201 *before* any log line is
written; the second `is None` check at line 204 (which would log the skip)
can never fire, because by then `alt_label` is the result of
`__apply_lower_case__(str(alt_label), ...)`, always a `str`.  The keyword
`save()` at line 217 is not inside any `try`, so a failing keyword save
raises and aborts the whole run. -/
def agrovocConceptLoop (store lower_case : Bool) (defaultlang : String)
    (keywordSaveOk : TKRec → Bool) (labelSaveOk : TKLRec → Bool)
    (thesaurus : ThesaurusRec) : List AgrovocConcept → ConceptLoopOut
  | [] =>
    { keywords := [], createdKeywords := [], labels := [], createdLabels := [],
      logs := [], fatal := none }
  | concept :: rest =>
    let about := apply_lower_case concept.uri lower_case
    match get_default_language_preflabel defaultlang concept.prefLabelNodes with
    | none =>
      -- line 201-202: skipped with no log line; the logging branch below is dead code
      agrovocConceptLoop store lower_case defaultlang keywordSaveOk labelSaveOk thesaurus rest
    | some alt0 =>
      let alt_label := apply_lower_case alt0 lower_case
      let tk : TKRec := { thesaurus := thesaurus, about := about, alt_label := alt_label }
      if store && !(keywordSaveOk tk) then
        -- `tk.save()` raised an IntegrityError that nothing catches
        { keywords := [], createdKeywords := [tk], labels := [], createdLabels := [],
          logs := [], fatal := some "IntegrityError: could not save ThesaurusKeyword" }
      else
        let lout := agrovocLabelLoop store lower_case labelSaveOk tk concept.prefLabelNodes
        match lout.err with
        | some e =>
          -- the AttributeError from the label loop propagates; run aborts here
          { keywords := if store then [tk] else [], createdKeywords := [tk],
            labels := lout.persisted, createdLabels := lout.created,
            logs := lout.logs, fatal := some e }
        | none =>
          let tail := agrovocConceptLoop store lower_case defaultlang keywordSaveOk
              labelSaveOk thesaurus rest
          let i := lout.count
          { keywords := (if store then [tk] else []) ++ tail.keywords,
            createdKeywords := tk :: tail.createdKeywords,
            labels := lout.persisted ++ tail.labels,
            createdLabels := lout.created ++ tail.createdLabels,
            logs := lout.logs ++ [LogEntry.success s!" set alt_label: {alt_label}: ({i})"]
              ++ tail.logs,
            fatal := tail.fatal }

/-- Lines 165-186 of the AGROVOC command: resolve the thesaurus date,
scheme, title and description, producing either a fatal error or the
`Thesaurus` record and the log line about it.  When `dcterms:modified` is
absent, `g.value` returns the default `""` and
`"".replace(tzinfo=None)` raises a `TypeError` (fatal).  Zero concept
schemes raise `CommandError`; more than one makes `g.value(..., any=False)`
raise a `UniquenessError`.  An empty title list makes `value_for_language`
raise `IndexError`.  Note line 178 rebinds `description`, so the
`--description` argument value is never consulted. -/
def agrovocResolveThesaurus (g : AgrovocGraph) (name title defaultlang : String) :
    Except String (ThesaurusRec × LogEntry) :=
  match g.modified with
  | none => Except.error "TypeError: replace is not a valid keyword argument for str"
  | some dt =>
    let thesaurus_date := dt.isoformatNoTz
    match g.schemes with
    | [] => Except.error "CommandError: ConceptScheme not found in file"
    | _ :: _ :: _ => Except.error "UniquenessError: more than one ConceptScheme"
    | [scheme] =>
      match value_for_language g.schemeTitles defaultlang with
      | none => Except.error "IndexError: list index out of range"
      | some thesaurus_title =>
        let description := g.schemeDescription.getD thesaurus_title
        Except.ok
          ({ identifier := name, description := description, title := thesaurus_title,
             about := scheme, date := thesaurus_date },
           LogEntry.success
             s!"Thesaurus \x22{title}\x22, desc: {description} issued at {thesaurus_date}")

/-- `Command.load_thesaurus` of `load_agrovoc_thesaurus.py` (lines
135-244).  `store` is `not dryrun`; the three oracles give the outcome of
each `save()` call.  The thesaurus `save()` at line 189 is unguarded, so a
failure there is fatal; its log line is only written afterwards. -/
def agrovoc_load_thesaurus (g : AgrovocGraph) (o : AgrovocOptions) (store : Bool)
    (thesaurusSaveOk : ThesaurusRec → Bool) (keywordSaveOk : TKRec → Bool)
    (labelSaveOk : TKLRec → Bool) : RunOut :=
  let baseLogs := [LogEntry.success "Starting to parsed file: <file> ...",
                   LogEntry.success "Successful parsed file: <file> ..."]
  match agrovocResolveThesaurus g o.name o.title o.defaultlang with
  | Except.error e =>
    { thesauri := [], keywords := [], labels := [], createdKeywords := [],
      createdLabels := [], logs := baseLogs, fatal := some e }
  | Except.ok (thesaurus, thLog) =>
    if store && !(thesaurusSaveOk thesaurus) then
      { thesauri := [], keywords := [], labels := [], createdKeywords := [],
        createdLabels := [], logs := baseLogs,
        fatal := some "IntegrityError: could not save Thesaurus" }
    else
      let cout := agrovocConceptLoop store o.lower_case o.defaultlang keywordSaveOk
          labelSaveOk thesaurus g.concepts
      { thesauri := if store then [thesaurus] else [],
        keywords := cout.keywords, labels := cout.labels,
        createdKeywords := cout.createdKeywords, createdLabels := cout.createdLabels,
        logs := baseLogs ++ [thLog] ++ cout.logs, fatal := cout.fatal }

/-- Output of the per-concept label loop of the GEMET command: constructed
and persisted labels, log lines, and whether an exception (failed save or
`None.lower()`) aborted the loop — such an exception is caught by the
surrounding `except`, which prints and moves to the next concept. -/
structure GemetLabelOut where
  created : List TKLRec
  persisted : List TKLRec
  logs : List LogEntry
  aborted : Bool
deriving DecidableEq, Repr

/-- The label loop of the GEMET command (`load_gemet_thesaurus.py` lines
165-179): for every `(labelProp, literal)` pair of `preferredLabel(g,
concept)` (no language filter), fold the tag and the text if requested
(`None.lower()` raises, aborting the loop), and when the folded tag is in
`SUPPORTED_LANGUAGES` log the label, construct a `ThesaurusKeywordLabel`
and, when `store` is set, save it, a failure aborting the loop. -/
def gemetLabelLoop (store lower_case : Bool) (labelSaveOk : TKLRec → Bool)
    (tk : TKRec) : List (LabelProp × Lit) → GemetLabelOut
  | [] => { created := [], persisted := [], logs := [], aborted := false }
  | (_, pref_label) :: rest =>
    match apply_lower_case_opt pref_label.language lower_case with
    | Except.error _ =>
      { created := [], persisted := [], logs := [], aborted := true }
    | Except.ok langOpt =>
      let label := apply_lower_case pref_label.text lower_case
      match langOpt with
      | some lang =>
        if SUPPORTED_LANGUAGES.contains lang then
          let lg := LogEntry.success s!"  Label {lang}: {label}"
          let tkl : TKLRec := { keyword := tk, lang := lang, label := label }
          if store && !(labelSaveOk tkl) then
            { created := [tkl], persisted := [], logs := [lg], aborted := true }
          else
            let tail := gemetLabelLoop store lower_case labelSaveOk tk rest
            { created := tkl :: tail.created,
              persisted := (if store then [tkl] else []) ++ tail.persisted,
              logs := lg :: tail.logs, aborted := tail.aborted }
        else gemetLabelLoop store lower_case labelSaveOk tk rest
      | none => gemetLabelLoop store lower_case labelSaveOk tk rest

/-- The concept loop of the GEMET command (lines 142-181).  A concept whose
`preferredLabel(g, concept, defaultlang)` is empty raises `IndexError` at
`[0]`, caught by the `except`, which only *formats* an error message
(`self.style.ERROR(...)` without `self.stderr.write`), so nothing is
logged, and continues.  The keyword save and the whole label loop sit in
one `try`: a failure there prints `could not save: ..., duplicate ...` and
moves to the next concept. -/
def gemetConceptLoop (store lower_case : Bool) (defaultlang : String)
    (keywordSaveOk : TKRec → Bool) (labelSaveOk : TKLRec → Bool)
    (thesaurus : ThesaurusRec) : List GemetConcept → ConceptLoopOut
  | [] =>
    { keywords := [], createdKeywords := [], labels := [], createdLabels := [],
      logs := [], fatal := none }
  | concept :: rest =>
    match preferredLabel concept.labels (some defaultlang) with
    | [] =>
      -- IndexError caught; the styled message is built but never written
      gemetConceptLoop store lower_case defaultlang keywordSaveOk labelSaveOk thesaurus rest
    | (_, lit) :: _ =>
      let pref := apply_lower_case lit.text lower_case
      let about := apply_lower_case concept.uri lower_case
      let conceptLog := LogEntry.success s!"Concept: {pref} ({about})"
      let tk : TKRec := { thesaurus := thesaurus, about := about, alt_label := pref }
      let tail := gemetConceptLoop store lower_case defaultlang keywordSaveOk labelSaveOk
          thesaurus rest
      if store && !(keywordSaveOk tk) then
        { keywords := tail.keywords, createdKeywords := tk :: tail.createdKeywords,
          labels := tail.labels, createdLabels := tail.createdLabels,
          logs := conceptLog :: LogEntry.printed s!"could not save: {pref}, duplicate ..."
            :: tail.logs,
          fatal := none }
      else
        let lout := gemetLabelLoop store lower_case labelSaveOk tk
            (preferredLabel concept.labels none)
        let dupLogs := if lout.aborted
          then [LogEntry.printed s!"could not save: {pref}, duplicate ..."] else []
        { keywords := (if store then [tk] else []) ++ tail.keywords,
          createdKeywords := tk :: tail.createdKeywords,
          labels := lout.persisted ++ tail.labels,
          createdLabels := lout.created ++ tail.createdLabels,
          logs := conceptLog :: (lout.logs ++ dupLogs ++ tail.logs),
          fatal := none }

/-- Lines 115-127 of the GEMET command: resolve the scheme, title,
description and issued date, producing either a fatal error or the
`Thesaurus` record and its log line (written before the save there). -/
def gemetResolveThesaurus (g : GemetGraph) (name defaultlang : String) :
    Except String (ThesaurusRec × LogEntry) :=
  match g.schemes with
  | [] => Except.error "CommandError: ConceptScheme not found in file"
  | _ :: _ :: _ => Except.error "UniquenessError: more than one ConceptScheme"
  | [scheme] =>
    match value_for_language g.schemeTitles defaultlang with
    | none => Except.error "IndexError: list index out of range"
    | some thesaurus_title =>
      let description := g.schemeDescription.getD thesaurus_title
      let date_issued := g.dateIssued.getD "2024-01-01"
      Except.ok
        ({ identifier := name, description := description, title := thesaurus_title,
           about := scheme, date := date_issued },
         LogEntry.success
           s!"Thesaurus \x22{thesaurus_title}\x22, desc: {description} issued at {date_issued}")

/-- `Command.load_thesaurus` of `load_gemet_thesaurus.py` (lines 100-181).
The thesaurus `save()` at line 140 is unguarded, so a failure there is
fatal; the thesaurus log line was already written before it. -/
def gemet_load_thesaurus (g : GemetGraph) (o : GemetOptions) (store : Bool)
    (thesaurusSaveOk : ThesaurusRec → Bool) (keywordSaveOk : TKRec → Bool)
    (labelSaveOk : TKLRec → Bool) : RunOut :=
  let dl := o.defaultlang
  let log0 := LogEntry.success s!" using defaultlang: {dl} ..."
  match gemetResolveThesaurus g o.name o.defaultlang with
  | Except.error e =>
    { thesauri := [], keywords := [], labels := [], createdKeywords := [],
      createdLabels := [], logs := [log0], fatal := some e }
  | Except.ok (thesaurus, thLog) =>
    if store && !(thesaurusSaveOk thesaurus) then
      { thesauri := [], keywords := [], labels := [], createdKeywords := [],
        createdLabels := [], logs := [log0, thLog],
        fatal := some "IntegrityError: could not save Thesaurus" }
    else
      let cout := gemetConceptLoop store o.lower_case dl keywordSaveOk labelSaveOk
          thesaurus g.concepts
      { thesauri := if store then [thesaurus] else [],
        keywords := cout.keywords, labels := cout.labels,
        createdKeywords := cout.createdKeywords, createdLabels := cout.createdLabels,
        logs := [log0, thLog] ++ cout.logs, fatal := cout.fatal }

/-- Does this optional language tag hold an already-lower-case string?
Used to state the corrected case-folding claim. -/
def lowerTagged : Option String → Bool
  | none => false
  | some s => strLower s == s

/-- Claim C4 input, AGROVOC side: two concepts in the scheme; the first has
only a French SKOS-XL label, the second an English one; default language
`en`; no case folding; all saves succeed. -/
def c4AgGraph : AgrovocGraph :=
  { modified := some ⟨"2024-05-01T00:00:00"⟩,
    schemes := ["http://aims.fao.org/aos/agrovoc"],
    schemeTitles := [⟨"AGROVOC", some "en"⟩],
    schemeDescription := some "desc",
    concepts := [⟨"http://x/c1", [⟨some ⟨"eau", some "fr"⟩⟩]⟩,
                 ⟨"http://x/c2", [⟨some ⟨"water", some "en"⟩⟩]⟩] }

/-- The AGROVOC run on `c4AgGraph` (store on, every save succeeds). -/
def c4AgRun : RunOut :=
  agrovoc_load_thesaurus c4AgGraph ⟨"agrovoc", "AGROVOC", "fallback desc", "en", false⟩
    true (fun _ => true) (fun _ => true) (fun _ => true)

/-- Claim C4 input, GEMET side: same shape with plain SKOS labels. -/
def c4GemGraph : GemetGraph :=
  { schemes := ["http://x/scheme"], schemeTitles := [⟨"GEMET", some "en"⟩],
    schemeDescription := some "desc", dateIssued := some "2020-01-01",
    concepts := [⟨"http://x/c1", ⟨[⟨"eau", some "fr"⟩], []⟩⟩,
                 ⟨"http://x/c2", ⟨[⟨"water", some "en"⟩], []⟩⟩] }

/-- The GEMET run on `c4GemGraph`. -/
def c4GemRun : RunOut :=
  gemet_load_thesaurus c4GemGraph ⟨"gemet", "en", false⟩ true
    (fun _ => true) (fun _ => true) (fun _ => true)

/-- Claim C5 input: two concepts, both with resolvable English labels. -/
def c5Graph : AgrovocGraph :=
  { modified := some ⟨"2024-05-01T00:00:00"⟩, schemes := ["s"],
    schemeTitles := [⟨"T", some "en"⟩], schemeDescription := some "d",
    concepts := [⟨"c1", [⟨some ⟨"water", some "en"⟩⟩]⟩,
                 ⟨"c2", [⟨some ⟨"fire", some "en"⟩⟩]⟩] }

/-- The AGROVOC run on `c5Graph` in which the `save()` of the first
concept keyword raises a duplicate/integrity error. -/
def c5Run : RunOut :=
  agrovoc_load_thesaurus c5Graph ⟨"n", "t", "d", "en", false⟩ true
    (fun _ => true) (fun tk => tk.about != "c1") (fun _ => true)

/-- Claim C6/C7 input: one concept whose labels are tagged `EN` (upper
case, not in the whitelist as received) and `en`. -/
def c6Graph : AgrovocGraph :=
  { modified := some ⟨"2024-05-01T00:00:00"⟩, schemes := ["s"],
    schemeTitles := [⟨"T", some "en"⟩], schemeDescription := some "d",
    concepts := [⟨"c1", [⟨some ⟨"Wasser", some "EN"⟩⟩,
                         ⟨some ⟨"water", some "en"⟩⟩]⟩] }

/-- The run on `c6Graph` with `--force-lower-case` enabled. -/
def c6Run : RunOut :=
  agrovoc_load_thesaurus c6Graph ⟨"n", "t", "d", "en", true⟩ true
    (fun _ => true) (fun _ => true) (fun _ => true)

/-- The run on `c6Graph` with case folding enabled (claim C7). -/
def c7RunT : RunOut :=
  agrovoc_load_thesaurus c6Graph ⟨"n", "t", "d", "en", true⟩ true
    (fun _ => true) (fun _ => true) (fun _ => true)

/-- The run on `c6Graph` with case folding disabled (claim C7). -/
def c7RunF : RunOut :=
  agrovoc_load_thesaurus c6Graph ⟨"n", "t", "d", "en", false⟩ true
    (fun _ => true) (fun _ => true) (fun _ => true)

/-- Witness input for the corrected claim C7: every label tag is an
already-lower-case string. -/
def c7wAgGraph : AgrovocGraph :=
  { modified := some ⟨"2024-05-01T00:00:00"⟩, schemes := ["s"],
    schemeTitles := [⟨"T", some "en"⟩], schemeDescription := some "d",
    concepts := [⟨"C1", [⟨some ⟨"Water", some "en"⟩⟩,
                         ⟨some ⟨"Eau", some "fr"⟩⟩]⟩] }

/-- Witness input for the corrected claim C7, GEMET side. -/
def c7wGemGraph : GemetGraph :=
  { schemes := ["s"], schemeTitles := [⟨"T", some "en"⟩],
    schemeDescription := some "d", dateIssued := some "2020-01-01",
    concepts := [⟨"G1", ⟨[⟨"Water", some "en"⟩], [⟨"zz", some "zz"⟩]⟩⟩] }

/-- Claim C9 input: the scheme has no `dc:description` literal, and the
command is run with an explicit `--description` value. -/
def c9Graph : AgrovocGraph :=
  { modified := some ⟨"2024-05-01T00:00:00"⟩, schemes := ["s"],
    schemeTitles := [⟨"Resolved Title", some "en"⟩],
    schemeDescription := none, concepts := [] }

/-- The run on `c9Graph` with `--description` set to a custom fallback. -/
def c9Run : RunOut :=
  agrovoc_load_thesaurus c9Graph
    ⟨"name", "AGROVOC", "custom description from flag", "en", false⟩ true
    (fun _ => true) (fun _ => true) (fun _ => true)

/-- Claim C10 witness input. -/
def c10AgGraph : AgrovocGraph :=
  { modified := some ⟨"2024-05-01T00:00:00"⟩, schemes := ["s"],
    schemeTitles := [⟨"T", some "en"⟩], schemeDescription := some "d",
    concepts := [⟨"C1", [⟨some ⟨"Water", some "en"⟩⟩]⟩] }

/-- Claim C10 witness input, GEMET side. -/
def c10GemGraph : GemetGraph :=
  { schemes := ["s"], schemeTitles := [⟨"T", some "en"⟩],
    schemeDescription := some "d", dateIssued := some "2020-01-01",
    concepts := [⟨"G1", ⟨[⟨"Water", some "en"⟩], []⟩⟩] }

theorem value_for_language_scan_eq_find (d : String) (l : List Lit) :
    value_for_language_scan d l = (l.find? (acceptLang d)).map Lit.text := by
  induction l with
  | nil => rfl
  | cons item rest ih =>
    simp only [value_for_language_scan, List.find?, acceptLang]
    cases h : item.language with
    | none => simp
    | some tag =>
      cases hp : primarySubtag tag == d with
      | true => simp [hp]
      | false => simp [hp, ih]

theorem agLL_persisted_filter (store lower_case : Bool) (ok : TKLRec → Bool)
    (tk : TKRec) (nodes : List XLLabel) :
    (agrovocLabelLoop store lower_case ok tk nodes).persisted =
      (agrovocLabelLoop store lower_case ok tk nodes).created.filter
        (fun t => store && ok t) := by
  induction nodes with
  | nil => simp [agrovocLabelLoop]
  | cons node rest ih =>
    simp only [agrovocLabelLoop]
    cases h : apply_lower_case_opt (wrapLiteral node.literalForm).language lower_case with
    | error e => simp
    | ok langOpt =>
      cases langOpt with
      | none => simpa using ih
      | some lang =>
        by_cases hc : lang ∈ SUPPORTED_LANGUAGES
        · cases store with
          | false => simp [hc, List.filter, ih]
          | true =>
            cases hok : ok ⟨tk, lang, apply_lower_case (wrapLiteral node.literalForm).text lower_case⟩ with
            | true => simp [hc, hok, List.filter, ih]
            | false => simp [hc, hok, List.filter, ih]
        · simpa [hc] using ih

theorem agLL_core_indep (s1 s2 lower_case : Bool) (ok1 ok2 : TKLRec → Bool)
    (tk1 tk2 : TKRec) (nodes : List XLLabel) :
    (agrovocLabelLoop s1 lower_case ok1 tk1 nodes).count =
        (agrovocLabelLoop s2 lower_case ok2 tk2 nodes).count ∧
      (agrovocLabelLoop s1 lower_case ok1 tk1 nodes).err =
        (agrovocLabelLoop s2 lower_case ok2 tk2 nodes).err := by
  induction nodes with
  | nil => simp [agrovocLabelLoop]
  | cons node rest ih =>
    simp only [agrovocLabelLoop]
    cases h : apply_lower_case_opt (wrapLiteral node.literalForm).language lower_case with
    | error e => simp
    | ok langOpt =>
      cases langOpt with
      | none => simpa using ih
      | some lang =>
        by_cases hc : lang ∈ SUPPORTED_LANGUAGES
        · cases s1 <;> cases s2 <;>
            cases hok1 : ok1 ⟨tk1, lang, apply_lower_case (wrapLiteral node.literalForm).text lower_case⟩ <;>
            cases hok2 : ok2 ⟨tk2, lang, apply_lower_case (wrapLiteral node.literalForm).text lower_case⟩ <;>
            simp [hc, hok1, hok2, ih.1, ih.2]
        · simpa [hc] using ih

theorem agLL_logs_nil (lower_case : Bool) (ok : TKLRec → Bool) (tk : TKRec)
    (nodes : List XLLabel) :
    (agrovocLabelLoop false lower_case ok tk nodes).logs = [] ∧
      (agrovocLabelLoop true lower_case (fun _ => true) tk nodes).logs = [] := by
  induction nodes with
  | nil => simp [agrovocLabelLoop]
  | cons node rest ih =>
    simp only [agrovocLabelLoop]
    cases h : apply_lower_case_opt (wrapLiteral node.literalForm).language lower_case with
    | error e => simp
    | ok langOpt =>
      cases langOpt with
      | none => simpa using ih
      | some lang =>
        by_cases hc : lang ∈ SUPPORTED_LANGUAGES
        · simp [hc, ih.1, ih.2]
        · simpa [hc] using ih

theorem agLL_lang_supported (store lower_case : Bool) (ok : TKLRec → Bool)
    (tk : TKRec) (nodes : List XLLabel) :
    ((agrovocLabelLoop store lower_case ok tk nodes).created.all
      (fun t => SUPPORTED_LANGUAGES.contains t.lang)) = true := by
  induction nodes with
  | nil => simp [agrovocLabelLoop]
  | cons node rest ih =>
    simp only [agrovocLabelLoop]
    cases h : apply_lower_case_opt (wrapLiteral node.literalForm).language lower_case with
    | error e => simp
    | ok langOpt =>
      cases langOpt with
      | none => simpa using ih
      | some lang =>
        by_cases hc : lang ∈ SUPPORTED_LANGUAGES
        · cases store with
          | false => simpa [hc] using ih
          | true =>
            cases hok : ok ⟨tk, lang, apply_lower_case (wrapLiteral node.literalForm).text lower_case⟩ with
            | true => simpa [hc, hok] using ih
            | false => simpa [hc, hok] using ih
        · simpa [hc] using ih

theorem agLL_folded_fields (store : Bool) (ok : TKLRec → Bool) (tk : TKRec)
    (nodes : List XLLabel) :
    ∀ t ∈ (agrovocLabelLoop store true ok tk nodes).created,
      (∃ u, t.lang = strLower u) ∧ (∃ u, t.label = strLower u) := by
  induction nodes with
  | nil => simp [agrovocLabelLoop]
  | cons node rest ih =>
    simp only [agrovocLabelLoop]
    cases h : apply_lower_case_opt (wrapLiteral node.literalForm).language true with
    | error e => simp
    | ok langOpt =>
      cases langOpt with
      | none => simpa using ih
      | some lang =>
        have hl : ∃ u, lang = strLower u := by
          simp only [apply_lower_case_opt, if_true] at h
          cases hv : (wrapLiteral node.literalForm).language with
          | none => rw [hv] at h; exact absurd h (by simp)
          | some s => rw [hv] at h; exact ⟨s, by simpa using h.symm⟩
        by_cases hc : lang ∈ SUPPORTED_LANGUAGES
        · have hlab : ∃ u,
              apply_lower_case (wrapLiteral node.literalForm).text true = strLower u :=
            ⟨(wrapLiteral node.literalForm).text, rfl⟩
          cases store with
          | false =>
            intro t ht
            simp [hc] at ht
            rcases ht with rfl | ht
            · exact ⟨hl, hlab⟩
            · exact ih t ht
          | true =>
            cases hok : ok ⟨tk, lang, apply_lower_case (wrapLiteral node.literalForm).text true⟩ with
            | true =>
              intro t ht
              simp [hc, hok] at ht
              rcases ht with rfl | ht
              · exact ⟨hl, hlab⟩
              · exact ih t ht
            | false =>
              intro t ht
              simp [hc, hok] at ht
              rcases ht with rfl | ht
              · exact ⟨hl, hlab⟩
              · exact ih t ht
        · simpa [hc] using ih

theorem agLL_created_indep (store lower_case : Bool) (ok1 ok2 : TKLRec → Bool)
    (tk : TKRec) (nodes : List XLLabel) :
    (agrovocLabelLoop store lower_case ok1 tk nodes).created =
      (agrovocLabelLoop store lower_case ok2 tk nodes).created := by
  induction nodes with
  | nil => simp [agrovocLabelLoop]
  | cons node rest ih =>
    simp only [agrovocLabelLoop]
    cases h : apply_lower_case_opt (wrapLiteral node.literalForm).language lower_case with
    | error e => simp
    | ok langOpt =>
      cases langOpt with
      | none => simpa using ih
      | some lang =>
        by_cases hc : lang ∈ SUPPORTED_LANGUAGES
        · cases store <;>
            cases hok1 : ok1 ⟨tk, lang, apply_lower_case (wrapLiteral node.literalForm).text lower_case⟩ <;>
            cases hok2 : ok2 ⟨tk, lang, apply_lower_case (wrapLiteral node.literalForm).text lower_case⟩ <;>
            simp [hc, hok1, hok2, ih]
        · simpa [hc] using ih

theorem agLL_fold_selection (store : Bool) (ok : TKLRec → Bool) (tk1 tk2 : TKRec)
    (nodes : List XLLabel)
    (hn : (nodes.all fun n => lowerTagged (wrapLiteral n.literalForm).language) = true) :
    (agrovocLabelLoop store true ok tk1 nodes).created.map TKLRec.lang =
        (agrovocLabelLoop store false ok tk2 nodes).created.map TKLRec.lang ∧
      (agrovocLabelLoop store true ok tk1 nodes).created.map TKLRec.label =
        ((agrovocLabelLoop store false ok tk2 nodes).created.map TKLRec.label).map strLower ∧
      (agrovocLabelLoop store true ok tk1 nodes).err = none ∧
      (agrovocLabelLoop store false ok tk2 nodes).err = none := by
  induction nodes with
  | nil => simp [agrovocLabelLoop]
  | cons node rest ihraw =>
    simp only [List.all_cons, Bool.and_eq_true] at hn
    have ih := ihraw hn.2
    have hlt := hn.1
    cases hv : (wrapLiteral node.literalForm).language with
    | none => rw [hv] at hlt; exact absurd hlt (by simp [lowerTagged])
    | some s =>
      rw [hv] at hlt
      have hss : strLower s = s := by
        have := hlt
        simp only [lowerTagged] at this
        exact eq_of_beq this
      simp only [agrovocLabelLoop, hv, apply_lower_case_opt, if_true, if_false, hss]
      by_cases hc : s ∈ SUPPORTED_LANGUAGES
      · cases store <;>
          cases hok1 : ok ⟨tk1, s, strLower (wrapLiteral node.literalForm).text⟩ <;>
          cases hok2 : ok ⟨tk2, s, (wrapLiteral node.literalForm).text⟩ <;>
          simp [hc, hok1, hok2, ih.1, ih.2.1, ih.2.2.1, ih.2.2.2, apply_lower_case]
      · simpa [hc] using ih

theorem agCL_labels_filter (store lower_case : Bool) (dl : String)
    (kok : TKRec → Bool) (lok : TKLRec → Bool) (th : ThesaurusRec)
    (cs : List AgrovocConcept) :
    (agrovocConceptLoop store lower_case dl kok lok th cs).labels =
      (agrovocConceptLoop store lower_case dl kok lok th cs).createdLabels.filter
        (fun t => store && lok t) := by
  induction cs with
  | nil => simp [agrovocConceptLoop]
  | cons concept rest ih =>
    simp only [agrovocConceptLoop]
    cases hd : get_default_language_preflabel dl concept.prefLabelNodes with
    | none => exact ih
    | some alt0 =>
      by_cases hkw : (store && !(kok ⟨th, apply_lower_case concept.uri lower_case,
          apply_lower_case alt0 lower_case⟩)) = true
      · simp [hkw]
      · simp only [hkw, if_false, Bool.not_eq_true] at *
        rw [if_neg (by simp [hkw])]
        cases he : (agrovocLabelLoop store lower_case lok
            ⟨th, apply_lower_case concept.uri lower_case, apply_lower_case alt0 lower_case⟩
            concept.prefLabelNodes).err with
        | some e => simpa using agLL_persisted_filter store lower_case lok _ _
        | none => simp [List.filter_append, agLL_persisted_filter store lower_case lok _ _, ih]

theorem agCL_lok_indep (store lower_case : Bool) (dl : String)
    (kok : TKRec → Bool) (lok1 lok2 : TKLRec → Bool) (th : ThesaurusRec)
    (cs : List AgrovocConcept) :
    (agrovocConceptLoop store lower_case dl kok lok1 th cs).keywords =
        (agrovocConceptLoop store lower_case dl kok lok2 th cs).keywords ∧
      (agrovocConceptLoop store lower_case dl kok lok1 th cs).createdKeywords =
        (agrovocConceptLoop store lower_case dl kok lok2 th cs).createdKeywords ∧
      (agrovocConceptLoop store lower_case dl kok lok1 th cs).createdLabels =
        (agrovocConceptLoop store lower_case dl kok lok2 th cs).createdLabels ∧
      (agrovocConceptLoop store lower_case dl kok lok1 th cs).fatal =
        (agrovocConceptLoop store lower_case dl kok lok2 th cs).fatal := by
  induction cs with
  | nil => simp [agrovocConceptLoop]
  | cons concept rest ih =>
    simp only [agrovocConceptLoop]
    cases hd : get_default_language_preflabel dl concept.prefLabelNodes with
    | none => exact ih
    | some alt0 =>
      by_cases hkw : (store && !(kok ⟨th, apply_lower_case concept.uri lower_case,
          apply_lower_case alt0 lower_case⟩)) = true
      · simp [hkw]
      · have hkw2 : (store && !(kok ⟨th, apply_lower_case concept.uri lower_case,
            apply_lower_case alt0 lower_case⟩)) = false := by
          simpa using hkw
        have herr := (agLL_core_indep store store lower_case lok1 lok2
          ⟨th, apply_lower_case concept.uri lower_case, apply_lower_case alt0 lower_case⟩
          ⟨th, apply_lower_case concept.uri lower_case, apply_lower_case alt0 lower_case⟩
          concept.prefLabelNodes).2
        have hcr := agLL_created_indep store lower_case lok1 lok2
          ⟨th, apply_lower_case concept.uri lower_case, apply_lower_case alt0 lower_case⟩
          concept.prefLabelNodes
        cases he : (agrovocLabelLoop store lower_case lok1
            ⟨th, apply_lower_case concept.uri lower_case, apply_lower_case alt0 lower_case⟩
            concept.prefLabelNodes).err with
        | some e =>
          have he2 : (agrovocLabelLoop store lower_case lok2
              ⟨th, apply_lower_case concept.uri lower_case, apply_lower_case alt0 lower_case⟩
              concept.prefLabelNodes).err = some e := by rw [← herr, he]
          simp [hkw2, he, he2, hcr]
        | none =>
          have he2 : (agrovocLabelLoop store lower_case lok2
              ⟨th, apply_lower_case concept.uri lower_case, apply_lower_case alt0 lower_case⟩
              concept.prefLabelNodes).err = none := by rw [← herr, he]
          simp [hkw2, he, he2, hcr, ih.1, ih.2.1, ih.2.2.1, ih.2.2.2]

theorem agCL_dry_keywords (lower_case : Bool) (dl : String) (kok : TKRec → Bool)
    (lok : TKLRec → Bool) (th : ThesaurusRec) (cs : List AgrovocConcept) :
    (agrovocConceptLoop false lower_case dl kok lok th cs).keywords = [] := by
  induction cs with
  | nil => simp [agrovocConceptLoop]
  | cons concept rest ih =>
    simp only [agrovocConceptLoop]
    cases hd : get_default_language_preflabel dl concept.prefLabelNodes with
    | none => exact ih
    | some alt0 =>
      cases he : (agrovocLabelLoop false lower_case lok
          ⟨th, apply_lower_case concept.uri lower_case, apply_lower_case alt0 lower_case⟩
          concept.prefLabelNodes).err with
      | some e => simp [he]
      | none => simp [he, ih]

theorem agCL_logs_fatal (lower_case : Bool) (dl : String) (kok : TKRec → Bool)
    (lok : TKLRec → Bool) (th : ThesaurusRec) (cs : List AgrovocConcept) :
    (agrovocConceptLoop false lower_case dl kok lok th cs).logs =
        (agrovocConceptLoop true lower_case dl (fun _ => true) (fun _ => true) th cs).logs ∧
      (agrovocConceptLoop false lower_case dl kok lok th cs).fatal =
        (agrovocConceptLoop true lower_case dl (fun _ => true) (fun _ => true) th cs).fatal := by
  induction cs with
  | nil => simp [agrovocConceptLoop]
  | cons concept rest ih =>
    simp only [agrovocConceptLoop]
    cases hd : get_default_language_preflabel dl concept.prefLabelNodes with
    | none => exact ih
    | some alt0 =>
      have herr := (agLL_core_indep false true lower_case lok (fun _ => true)
        ⟨th, apply_lower_case concept.uri lower_case, apply_lower_case alt0 lower_case⟩
        ⟨th, apply_lower_case concept.uri lower_case, apply_lower_case alt0 lower_case⟩
        concept.prefLabelNodes)
      have hlg := agLL_logs_nil lower_case lok
        ⟨th, apply_lower_case concept.uri lower_case, apply_lower_case alt0 lower_case⟩
        concept.prefLabelNodes
      cases he : (agrovocLabelLoop false lower_case lok
          ⟨th, apply_lower_case concept.uri lower_case, apply_lower_case alt0 lower_case⟩
          concept.prefLabelNodes).err with
      | some e =>
        have he2 : (agrovocLabelLoop true lower_case (fun _ => true)
            ⟨th, apply_lower_case concept.uri lower_case, apply_lower_case alt0 lower_case⟩
            concept.prefLabelNodes).err = some e := by rw [← herr.2, he]
        simp [he, he2, hlg.1, hlg.2]
      | none =>
        have he2 : (agrovocLabelLoop true lower_case (fun _ => true)
            ⟨th, apply_lower_case concept.uri lower_case, apply_lower_case alt0 lower_case⟩
            concept.prefLabelNodes).err = none := by rw [← herr.2, he]
        simp [he, he2, hlg.1, hlg.2, herr.1, ih.1, ih.2]

theorem agCL_lang_supported (store lower_case : Bool) (dl : String)
    (kok : TKRec → Bool) (lok : TKLRec → Bool) (th : ThesaurusRec)
    (cs : List AgrovocConcept) :
    ((agrovocConceptLoop store lower_case dl kok lok th cs).createdLabels.all
      (fun t => SUPPORTED_LANGUAGES.contains t.lang)) = true := by
  induction cs with
  | nil => simp [agrovocConceptLoop]
  | cons concept rest ih =>
    simp only [agrovocConceptLoop]
    cases hd : get_default_language_preflabel dl concept.prefLabelNodes with
    | none => exact ih
    | some alt0 =>
      by_cases hkw : (store && !(kok ⟨th, apply_lower_case concept.uri lower_case,
          apply_lower_case alt0 lower_case⟩)) = true
      · simp [hkw]
      · have hkw2 : (store && !(kok ⟨th, apply_lower_case concept.uri lower_case,
            apply_lower_case alt0 lower_case⟩)) = false := by simpa using hkw
        have hall := agLL_lang_supported store lower_case lok
          ⟨th, apply_lower_case concept.uri lower_case, apply_lower_case alt0 lower_case⟩
          concept.prefLabelNodes
        cases he : (agrovocLabelLoop store lower_case lok
            ⟨th, apply_lower_case concept.uri lower_case, apply_lower_case alt0 lower_case⟩
            concept.prefLabelNodes).err with
        | some e => simpa [hkw2, he] using hall
        | none =>
          simp only [hkw2, Bool.false_eq_true, if_false, he]
          simp only [List.all_append, Bool.and_eq_true]
          exact ⟨hall, ih⟩

theorem agCL_folded (store : Bool) (dl : String) (kok : TKRec → Bool)
    (lok : TKLRec → Bool) (th : ThesaurusRec) (cs : List AgrovocConcept) :
    (∀ k ∈ (agrovocConceptLoop store true dl kok lok th cs).createdKeywords,
        (∃ u, k.about = strLower u) ∧ (∃ u, k.alt_label = strLower u)) ∧
      (∀ t ∈ (agrovocConceptLoop store true dl kok lok th cs).createdLabels,
        (∃ u, t.lang = strLower u) ∧ (∃ u, t.label = strLower u)) := by
  induction cs with
  | nil => simp [agrovocConceptLoop]
  | cons concept rest ih =>
    simp only [agrovocConceptLoop]
    cases hd : get_default_language_preflabel dl concept.prefLabelNodes with
    | none => exact ih
    | some alt0 =>
      have hab : apply_lower_case concept.uri true = strLower concept.uri := rfl
      have hal : apply_lower_case alt0 true = strLower alt0 := rfl
      by_cases hkw : (store && !(kok ⟨th, apply_lower_case concept.uri true,
          apply_lower_case alt0 true⟩)) = true
      · constructor
        · intro k hkm
          simp [hkw] at hkm
          subst hkm
          exact ⟨⟨concept.uri, hab⟩, ⟨alt0, hal⟩⟩
        · intro t htm
          simp [hkw] at htm
      · have hkw2 : (store && !(kok ⟨th, apply_lower_case concept.uri true,
            apply_lower_case alt0 true⟩)) = false := by simpa using hkw
        have hlf := agLL_folded_fields store lok
          ⟨th, apply_lower_case concept.uri true, apply_lower_case alt0 true⟩
          concept.prefLabelNodes
        cases he : (agrovocLabelLoop store true lok
            ⟨th, apply_lower_case concept.uri true, apply_lower_case alt0 true⟩
            concept.prefLabelNodes).err with
        | some e =>
          constructor
          · intro k hkm
            simp [hkw2, he] at hkm
            subst hkm
            exact ⟨⟨concept.uri, hab⟩, ⟨alt0, hal⟩⟩
          · intro t htm
            simp [hkw2, he] at htm
            exact hlf t htm
        | none =>
          constructor
          · intro k hkm
            simp [hkw2, he] at hkm
            rcases hkm with rfl | hkm
            · exact ⟨⟨concept.uri, hab⟩, ⟨alt0, hal⟩⟩
            · exact ih.1 k hkm
          · intro t htm
            simp [hkw2, he, List.mem_append] at htm
            rcases htm with htm | htm
            · exact hlf t htm
            · exact ih.2 t htm

theorem agCL_fold_selection (store : Bool) (dl : String) (kok : TKRec → Bool)
    (lok : TKLRec → Bool) (th1 th2 : ThesaurusRec) (cs : List AgrovocConcept)
    (hk : ∀ k, kok k = true)
    (hcs : (cs.all fun c => c.prefLabelNodes.all
        fun n => lowerTagged (wrapLiteral n.literalForm).language) = true) :
    (agrovocConceptLoop store true dl kok lok th1 cs).createdLabels.map TKLRec.lang =
        (agrovocConceptLoop store false dl kok lok th2 cs).createdLabels.map TKLRec.lang ∧
      (agrovocConceptLoop store true dl kok lok th1 cs).createdLabels.map TKLRec.label =
        ((agrovocConceptLoop store false dl kok lok th2 cs).createdLabels.map
          TKLRec.label).map strLower ∧
      (agrovocConceptLoop store true dl kok lok th1 cs).createdKeywords.map TKRec.about =
        ((agrovocConceptLoop store false dl kok lok th2 cs).createdKeywords.map
          TKRec.about).map strLower := by
  induction cs with
  | nil => simp [agrovocConceptLoop]
  | cons concept rest ihraw =>
    simp only [List.all_cons, Bool.and_eq_true] at hcs
    have ih := ihraw hcs.2
    simp only [agrovocConceptLoop]
    cases hd : get_default_language_preflabel dl concept.prefLabelNodes with
    | none => exact ih
    | some alt0 =>
      have hfold := agLL_fold_selection store lok
        ⟨th1, apply_lower_case concept.uri true, apply_lower_case alt0 true⟩
        ⟨th2, apply_lower_case concept.uri false, apply_lower_case alt0 false⟩
        concept.prefLabelNodes hcs.1
      have hkw1 : (store && !(kok ⟨th1, apply_lower_case concept.uri true,
          apply_lower_case alt0 true⟩)) = false := by simp [hk]
      have hkw2 : (store && !(kok ⟨th2, apply_lower_case concept.uri false,
          apply_lower_case alt0 false⟩)) = false := by simp [hk]
      simp only [hkw1, hkw2, Bool.false_eq_true, if_false, hfold.2.2.1, hfold.2.2.2]
      refine ⟨?_, ?_, ?_⟩
      · simp only [List.map_append]
        rw [hfold.1, ih.1]
      · simp only [List.map_append]
        rw [hfold.2.1, ih.2.1]
      · simp only [List.map_cons]
        rw [ih.2.2]
        rfl

theorem gemLL_persisted_filter (store lower_case : Bool) (ok : TKLRec → Bool)
    (tk : TKRec) (ps : List (LabelProp × Lit)) :
    (gemetLabelLoop store lower_case ok tk ps).persisted =
      (gemetLabelLoop store lower_case ok tk ps).created.filter
        (fun t => store && ok t) := by
  induction ps with
  | nil => simp [gemetLabelLoop]
  | cons pr rest ih =>
    obtain ⟨p, pref_label⟩ := pr
    simp only [gemetLabelLoop]
    cases h : apply_lower_case_opt pref_label.language lower_case with
    | error e => simp
    | ok langOpt =>
      cases langOpt with
      | none => simpa using ih
      | some lang =>
        by_cases hc : lang ∈ SUPPORTED_LANGUAGES
        · cases store with
          | false => simp [hc, List.filter, ih]
          | true =>
            cases hok : ok ⟨tk, lang, apply_lower_case pref_label.text lower_case⟩ with
            | true => simp [hc, hok, List.filter, ih]
            | false => simp [hc, hok, List.filter]
        · simpa [hc] using ih

theorem gemLL_dry_wet (lower_case : Bool) (ok : TKLRec → Bool) (tk : TKRec)
    (ps : List (LabelProp × Lit)) :
    (gemetLabelLoop false lower_case ok tk ps).created =
        (gemetLabelLoop true lower_case (fun _ => true) tk ps).created ∧
      (gemetLabelLoop false lower_case ok tk ps).logs =
        (gemetLabelLoop true lower_case (fun _ => true) tk ps).logs ∧
      (gemetLabelLoop false lower_case ok tk ps).aborted =
        (gemetLabelLoop true lower_case (fun _ => true) tk ps).aborted := by
  induction ps with
  | nil => simp [gemetLabelLoop]
  | cons pr rest ih =>
    obtain ⟨p, pref_label⟩ := pr
    simp only [gemetLabelLoop]
    cases h : apply_lower_case_opt pref_label.language lower_case with
    | error e => simp
    | ok langOpt =>
      cases langOpt with
      | none => simpa using ih
      | some lang =>
        by_cases hc : lang ∈ SUPPORTED_LANGUAGES
        · simp [hc, ih.1, ih.2.1, ih.2.2]
        · simpa [hc] using ih

theorem gemLL_lang_supported (store lower_case : Bool) (ok : TKLRec → Bool)
    (tk : TKRec) (ps : List (LabelProp × Lit)) :
    ((gemetLabelLoop store lower_case ok tk ps).created.all
      (fun t => SUPPORTED_LANGUAGES.contains t.lang)) = true := by
  induction ps with
  | nil => simp [gemetLabelLoop]
  | cons pr rest ih =>
    obtain ⟨p, pref_label⟩ := pr
    simp only [gemetLabelLoop]
    cases h : apply_lower_case_opt pref_label.language lower_case with
    | error e => simp
    | ok langOpt =>
      cases langOpt with
      | none => simpa using ih
      | some lang =>
        by_cases hc : lang ∈ SUPPORTED_LANGUAGES
        · cases store with
          | false => simpa [hc] using ih
          | true =>
            cases hok : ok ⟨tk, lang, apply_lower_case pref_label.text lower_case⟩ with
            | true => simpa [hc, hok] using ih
            | false => simp [hc, hok]
        · simpa [hc] using ih

theorem gemLL_folded_fields (store : Bool) (ok : TKLRec → Bool) (tk : TKRec)
    (ps : List (LabelProp × Lit)) :
    ∀ t ∈ (gemetLabelLoop store true ok tk ps).created,
      (∃ u, t.lang = strLower u) ∧ (∃ u, t.label = strLower u) := by
  induction ps with
  | nil => simp [gemetLabelLoop]
  | cons pr rest ih =>
    obtain ⟨p, pref_label⟩ := pr
    simp only [gemetLabelLoop]
    cases h : apply_lower_case_opt pref_label.language true with
    | error e => simp
    | ok langOpt =>
      cases langOpt with
      | none => simpa using ih
      | some lang =>
        have hl : ∃ u, lang = strLower u := by
          simp only [apply_lower_case_opt, if_true] at h
          cases hv : pref_label.language with
          | none => rw [hv] at h; exact absurd h (by simp)
          | some s => rw [hv] at h; exact ⟨s, by simpa using h.symm⟩
        have hlab : ∃ u, apply_lower_case pref_label.text true = strLower u :=
          ⟨pref_label.text, rfl⟩
        by_cases hc : lang ∈ SUPPORTED_LANGUAGES
        · cases store with
          | false =>
            intro t ht
            simp [hc] at ht
            rcases ht with rfl | ht
            · exact ⟨hl, hlab⟩
            · exact ih t ht
          | true =>
            cases hok : ok ⟨tk, lang, apply_lower_case pref_label.text true⟩ with
            | true =>
              intro t ht
              simp [hc, hok] at ht
              rcases ht with rfl | ht
              · exact ⟨hl, hlab⟩
              · exact ih t ht
            | false =>
              intro t ht
              simp [hc, hok] at ht
              subst ht
              exact ⟨hl, hlab⟩
        · simpa [hc] using ih

theorem gemLL_fold_selection (store : Bool) (ok : TKLRec → Bool) (tk1 tk2 : TKRec)
    (ps : List (LabelProp × Lit)) (hl : ∀ t, ok t = true)
    (hp : (ps.all fun pr => lowerTagged pr.2.language) = true) :
    (gemetLabelLoop store true ok tk1 ps).created.map TKLRec.lang =
        (gemetLabelLoop store false ok tk2 ps).created.map TKLRec.lang ∧
      (gemetLabelLoop store true ok tk1 ps).created.map TKLRec.label =
        ((gemetLabelLoop store false ok tk2 ps).created.map TKLRec.label).map strLower := by
  induction ps with
  | nil => simp [gemetLabelLoop]
  | cons pr rest ihraw =>
    simp only [List.all_cons, Bool.and_eq_true] at hp
    have ih := ihraw hp.2
    obtain ⟨p, pref_label⟩ := pr
    have hlt := hp.1
    cases hv : pref_label.language with
    | none => rw [hv] at hlt; exact absurd hlt (by simp [lowerTagged])
    | some s =>
      rw [hv] at hlt
      have hss : strLower s = s := by
        simp only [lowerTagged] at hlt
        exact eq_of_beq hlt
      simp only [gemetLabelLoop, hv, apply_lower_case_opt, if_true, if_false, hss]
      by_cases hc : s ∈ SUPPORTED_LANGUAGES
      · simp [hc, hl, ih.1, ih.2, apply_lower_case]
      · simpa [hc] using ih

theorem preferredLabel_all_tags (s : SubjectLabels)
    (h1 : (s.prefLabels.all fun l => lowerTagged l.language) = true)
    (h2 : (s.rdfsLabels.all fun l => lowerTagged l.language) = true) :
    ((preferredLabel s none).all fun pr => lowerTagged pr.2.language) = true := by
  have hf : ∀ l : List Lit, l.filter (langfilter none) = l := by
    intro l
    apply List.filter_eq_self.mpr
    intro a _
    rfl
  simp only [preferredLabel, preferredLabelGo, labelsOf, hf]
  by_cases he : s.prefLabels.isEmpty
  · by_cases he2 : s.rdfsLabels.isEmpty
    · simp [he, he2]
    · simp only [he, if_true, he2, Bool.false_eq_true, if_false]
      simpa [Function.comp] using h2
  · simp only [he, Bool.false_eq_true, if_false]
    simpa [Function.comp] using h1

theorem agLL_dry_persisted (lower_case : Bool) (ok : TKLRec → Bool) (tk : TKRec)
    (nodes : List XLLabel) :
    (agrovocLabelLoop false lower_case ok tk nodes).persisted = [] := by
  simpa using agLL_persisted_filter false lower_case ok tk nodes

theorem gemLL_dry_persisted (lower_case : Bool) (ok : TKLRec → Bool) (tk : TKRec)
    (ps : List (LabelProp × Lit)) :
    (gemetLabelLoop false lower_case ok tk ps).persisted = [] := by
  simpa using gemLL_persisted_filter false lower_case ok tk ps

theorem gemCL_fatal_none (store lower_case : Bool) (dl : String)
    (kok : TKRec → Bool) (lok : TKLRec → Bool) (th : ThesaurusRec)
    (cs : List GemetConcept) :
    (gemetConceptLoop store lower_case dl kok lok th cs).fatal = none := by
  induction cs with
  | nil => simp [gemetConceptLoop]
  | cons concept rest ih =>
    simp only [gemetConceptLoop]
    cases hd : preferredLabel concept.labels (some dl) with
    | nil => exact ih
    | cons pr rest2 =>
      obtain ⟨p, lit⟩ := pr
      by_cases hkw : (store && !(kok ⟨th, apply_lower_case concept.uri lower_case,
          apply_lower_case lit.text lower_case⟩)) = true
      · simp [hkw]
      · simp [hkw]

theorem gemCL_ck_indep (store lower_case : Bool) (dl : String)
    (kok1 kok2 : TKRec → Bool) (lok1 lok2 : TKLRec → Bool) (th : ThesaurusRec)
    (cs : List GemetConcept) :
    (gemetConceptLoop store lower_case dl kok1 lok1 th cs).createdKeywords =
      (gemetConceptLoop store lower_case dl kok2 lok2 th cs).createdKeywords := by
  induction cs with
  | nil => simp [gemetConceptLoop]
  | cons concept rest ih =>
    simp only [gemetConceptLoop]
    cases hd : preferredLabel concept.labels (some dl) with
    | nil => exact ih
    | cons pr rest2 =>
      obtain ⟨p, lit⟩ := pr
      by_cases hkw1 : (store && !(kok1 ⟨th, apply_lower_case concept.uri lower_case,
          apply_lower_case lit.text lower_case⟩)) = true <;>
        by_cases hkw2 : (store && !(kok2 ⟨th, apply_lower_case concept.uri lower_case,
          apply_lower_case lit.text lower_case⟩)) = true <;>
        simp [hkw1, hkw2, ih]

theorem gemCL_dry (lower_case : Bool) (dl : String) (kok : TKRec → Bool)
    (lok : TKLRec → Bool) (th : ThesaurusRec) (cs : List GemetConcept) :
    (gemetConceptLoop false lower_case dl kok lok th cs).keywords = [] ∧
      (gemetConceptLoop false lower_case dl kok lok th cs).labels = [] := by
  induction cs with
  | nil => simp [gemetConceptLoop]
  | cons concept rest ih =>
    simp only [gemetConceptLoop]
    cases hd : preferredLabel concept.labels (some dl) with
    | nil => exact ih
    | cons pr rest2 =>
      obtain ⟨p, lit⟩ := pr
      simp [gemLL_dry_persisted, ih.1, ih.2]

theorem gemCL_logs (lower_case : Bool) (dl : String) (kok : TKRec → Bool)
    (lok : TKLRec → Bool) (th : ThesaurusRec) (cs : List GemetConcept) :
    (gemetConceptLoop false lower_case dl kok lok th cs).logs =
      (gemetConceptLoop true lower_case dl (fun _ => true) (fun _ => true) th cs).logs := by
  induction cs with
  | nil => simp [gemetConceptLoop]
  | cons concept rest ih =>
    simp only [gemetConceptLoop]
    cases hd : preferredLabel concept.labels (some dl) with
    | nil => exact ih
    | cons pr rest2 =>
      obtain ⟨p, lit⟩ := pr
      have hdw := gemLL_dry_wet lower_case lok
        ⟨th, apply_lower_case concept.uri lower_case, apply_lower_case lit.text lower_case⟩
        (preferredLabel concept.labels none)
      simp [hdw.2.1, hdw.2.2, ih]

theorem gemCL_lang_supported (store lower_case : Bool) (dl : String)
    (kok : TKRec → Bool) (lok : TKLRec → Bool) (th : ThesaurusRec)
    (cs : List GemetConcept) :
    ((gemetConceptLoop store lower_case dl kok lok th cs).createdLabels.all
      (fun t => SUPPORTED_LANGUAGES.contains t.lang)) = true := by
  induction cs with
  | nil => simp [gemetConceptLoop]
  | cons concept rest ih =>
    simp only [gemetConceptLoop]
    cases hd : preferredLabel concept.labels (some dl) with
    | nil => exact ih
    | cons pr rest2 =>
      obtain ⟨p, lit⟩ := pr
      by_cases hkw : (store && !(kok ⟨th, apply_lower_case concept.uri lower_case,
          apply_lower_case lit.text lower_case⟩)) = true
      · simpa [hkw] using ih
      · have hall := gemLL_lang_supported store lower_case lok
          ⟨th, apply_lower_case concept.uri lower_case, apply_lower_case lit.text lower_case⟩
          (preferredLabel concept.labels none)
        have hkw2 : (store && !(kok ⟨th, apply_lower_case concept.uri lower_case,
            apply_lower_case lit.text lower_case⟩)) = false := by simpa using hkw
        simp only [hkw2, Bool.false_eq_true, if_false, List.all_append, Bool.and_eq_true]
        exact ⟨hall, ih⟩

theorem gemCL_folded (store : Bool) (dl : String) (kok : TKRec → Bool)
    (lok : TKLRec → Bool) (th : ThesaurusRec) (cs : List GemetConcept) :
    (∀ k ∈ (gemetConceptLoop store true dl kok lok th cs).createdKeywords,
        (∃ u, k.about = strLower u) ∧ (∃ u, k.alt_label = strLower u)) ∧
      (∀ t ∈ (gemetConceptLoop store true dl kok lok th cs).createdLabels,
        (∃ u, t.lang = strLower u) ∧ (∃ u, t.label = strLower u)) := by
  induction cs with
  | nil => simp [gemetConceptLoop]
  | cons concept rest ih =>
    simp only [gemetConceptLoop]
    cases hd : preferredLabel concept.labels (some dl) with
    | nil => exact ih
    | cons pr rest2 =>
      obtain ⟨p, lit⟩ := pr
      have hab : apply_lower_case concept.uri true = strLower concept.uri := rfl
      have hal : apply_lower_case lit.text true = strLower lit.text := rfl
      have hlf := gemLL_folded_fields store lok
        ⟨th, apply_lower_case concept.uri true, apply_lower_case lit.text true⟩
        (preferredLabel concept.labels none)
      by_cases hkw : (store && !(kok ⟨th, apply_lower_case concept.uri true,
          apply_lower_case lit.text true⟩)) = true
      · constructor
        · intro k hkm
          simp [hkw] at hkm
          rcases hkm with rfl | hkm
          · exact ⟨⟨concept.uri, hab⟩, ⟨lit.text, hal⟩⟩
          · exact ih.1 k hkm
        · intro t htm
          simp [hkw] at htm
          exact ih.2 t htm
      · constructor
        · intro k hkm
          simp [hkw] at hkm
          rcases hkm with rfl | hkm
          · exact ⟨⟨concept.uri, hab⟩, ⟨lit.text, hal⟩⟩
          · exact ih.1 k hkm
        · intro t htm
          simp [hkw, List.mem_append] at htm
          rcases htm with htm | htm
          · exact hlf t htm
          · exact ih.2 t htm

theorem gemCL_fold_selection (store : Bool) (dl : String) (kok : TKRec → Bool)
    (lok : TKLRec → Bool) (th1 th2 : ThesaurusRec) (cs : List GemetConcept)
    (hk : ∀ k, kok k = true) (hl : ∀ t, lok t = true)
    (hcs : (cs.all fun c =>
        (c.labels.prefLabels.all fun l => lowerTagged l.language) &&
          (c.labels.rdfsLabels.all fun l => lowerTagged l.language)) = true) :
    (gemetConceptLoop store true dl kok lok th1 cs).createdLabels.map TKLRec.lang =
        (gemetConceptLoop store false dl kok lok th2 cs).createdLabels.map TKLRec.lang ∧
      (gemetConceptLoop store true dl kok lok th1 cs).createdLabels.map TKLRec.label =
        ((gemetConceptLoop store false dl kok lok th2 cs).createdLabels.map
          TKLRec.label).map strLower ∧
      (gemetConceptLoop store true dl kok lok th1 cs).createdKeywords.map TKRec.about =
        ((gemetConceptLoop store false dl kok lok th2 cs).createdKeywords.map
          TKRec.about).map strLower := by
  induction cs with
  | nil => simp [gemetConceptLoop]
  | cons concept rest ihraw =>
    simp only [List.all_cons, Bool.and_eq_true] at hcs
    have ih := ihraw hcs.2
    simp only [gemetConceptLoop]
    cases hd : preferredLabel concept.labels (some dl) with
    | nil => exact ih
    | cons pr rest2 =>
      obtain ⟨p, lit⟩ := pr
      have hp := preferredLabel_all_tags concept.labels hcs.1.1 hcs.1.2
      have hfold := gemLL_fold_selection store lok
        ⟨th1, apply_lower_case concept.uri true, apply_lower_case lit.text true⟩
        ⟨th2, apply_lower_case concept.uri false, apply_lower_case lit.text false⟩
        (preferredLabel concept.labels none) hl hp
      have hkw1 : (store && !(kok ⟨th1, apply_lower_case concept.uri true,
          apply_lower_case lit.text true⟩)) = false := by simp [hk]
      have hkw2 : (store && !(kok ⟨th2, apply_lower_case concept.uri false,
          apply_lower_case lit.text false⟩)) = false := by simp [hk]
      simp only [hkw1, hkw2, Bool.false_eq_true, if_false]
      refine ⟨?_, ?_, ?_⟩
      · simp only [List.map_append]
        rw [hfold.1, ih.1]
      · simp only [List.map_append]
        rw [hfold.2, ih.2.1]
      · simp only [List.map_cons]
        rw [ih.2.2]
        rfl

/-- Claim C1: for every non-empty list of language-tagged literals and every
target language, `value_for_language` scans the list sorted by language tag
(absent tag = empty string) and returns the first literal whose tag is
absent or whose primary subtag equals the target (`acceptLang`); if none
matches, it returns the first element of the original, unsorted input
(`value_for_language_claimed` states exactly this algorithm). -/
theorem value_for_language_matches_claim (available : List Lit) (d : String)
    (h : available ≠ []) :
    value_for_language available d = value_for_language_claimed available d ∧
      (value_for_language available d).isSome = true := by
  have heq : value_for_language available d = value_for_language_claimed available d := by
    unfold value_for_language value_for_language_claimed
    simp only [value_for_language_scan_eq_find]
    cases hf : (sortByLangTag available).find? (acceptLang d) <;> simp
  refine ⟨heq, ?_⟩
  rw [heq]
  unfold value_for_language_claimed
  cases hf : (sortByLangTag available).find? (acceptLang d) with
  | some l => simp
  | none =>
    cases available with
    | nil => exact absurd rfl h
    | cons a as => simp

/-- Witness for claim C1 at a concrete input. -/
theorem value_for_language_matches_claim_witness :
    ([⟨"bonjour", some "fr"⟩, ⟨"hello", some "en-US"⟩] : List Lit) ≠ [] ∧
      (value_for_language [⟨"bonjour", some "fr"⟩, ⟨"hello", some "en-US"⟩] "en" =
          value_for_language_claimed [⟨"bonjour", some "fr"⟩, ⟨"hello", some "en-US"⟩] "en" ∧
        (value_for_language [⟨"bonjour", some "fr"⟩, ⟨"hello", some "en-US"⟩] "en").isSome
          = true) :=
  ⟨by decide, value_for_language_matches_claim _ "en" (by decide)⟩

/-- Counterexample to claim C2: a subject with a `skos:prefLabel` literal
(`hello@en`) none of which passes the `fr` filter does NOT get the empty
default: `preferredLabel` falls through to the `rdfs:label` literals. -/
theorem preferredLabel_fallthrough_cex :
    (([⟨"hello", some "en"⟩] : List Lit) ≠ []) ∧
      (([⟨"hello", some "en"⟩] : List Lit).filter (langfilter (some "fr")) = []) ∧
      preferredLabel ⟨[⟨"hello", some "en"⟩], [⟨"bonjour", some "fr"⟩]⟩ (some "fr") =
        [(LabelProp.rdfsLabel, ⟨"bonjour", some "fr"⟩)] := by decide

/-- Claim C2 as amended: `preferredLabel` applies the language filter
*before* the property preference: the winner is the first property in
(`skos:prefLabel`, `rdfs:label`) whose *filtered* literal list is
non-empty; if the prefLabel literals all fail the filter it falls through
to `rdfs:label`, and only when both filtered lists are empty is the empty
default returned. -/
theorem preferredLabel_filtered_preference (s : SubjectLabels) (lang : Option String) :
    preferredLabel s lang =
      (if (s.prefLabels.filter (langfilter lang)).isEmpty then
        (if (s.rdfsLabels.filter (langfilter lang)).isEmpty then []
         else (s.rdfsLabels.filter (langfilter lang)).map
           (fun l => (LabelProp.rdfsLabel, l)))
       else (s.prefLabels.filter (langfilter lang)).map
         (fun l => (LabelProp.skosPrefLabel, l))) := rfl

/-- Claim C3: `get_default_language_preflabel` returns the literal-form
text of the first SKOS-XL prefLabel target whose language tag equals the
default language exactly (`==`, no primary-subtag relaxation), and `none`
when no tag matches exactly. -/
theorem get_default_language_preflabel_exact_match (d : String) (nodes : List XLLabel) :
    get_default_language_preflabel d nodes =
      ((nodes.map fun n => wrapLiteral n.literalForm).find?
        (fun l => l.language == some d)).map Lit.text := by
  induction nodes with
  | nil => rfl
  | cons n rest ih =>
    simp only [get_default_language_preflabel, List.map_cons, List.find?]
    cases hq : (wrapLiteral n.literalForm).language == some d with
    | true => simp [hq]
    | false => simp [hq, ih]

/-- Claim C4 (code defect): a concept with no resolvable default-language
canonical label is skipped entirely (no keyword, no label rows) and the
run continues without failing — but NO error is logged for it: in the
AGROVOC command the `continue` at line 201 runs before the logging branch
(line 204, unreachable), and in the GEMET command the `except` branch only
formats `self.style.ERROR(...)` without writing it.  The runs' logs are
exactly the success lines for the resolvable concept. -/
theorem missing_default_label_skip_unlogged :
    c4AgRun.fatal = none ∧
      c4AgRun.keywords.map TKRec.about = ["http://x/c2"] ∧
      c4AgRun.createdKeywords.map TKRec.about = ["http://x/c2"] ∧
      c4AgRun.labels.map TKLRec.lang = ["en"] ∧
      c4AgRun.logs = [LogEntry.success "Starting to parsed file: <file> ...",
        LogEntry.success "Successful parsed file: <file> ...",
        LogEntry.success "Thesaurus \x22AGROVOC\x22, desc: desc issued at 2024-05-01T00:00:00",
        LogEntry.success " set alt_label: water: (1)"] ∧
      c4GemRun.fatal = none ∧
      c4GemRun.keywords.map TKRec.about = ["http://x/c2"] ∧
      c4GemRun.createdKeywords.map TKRec.about = ["http://x/c2"] ∧
      c4GemRun.logs = [LogEntry.success " using defaultlang: en ...",
        LogEntry.success "Thesaurus \x22GEMET\x22, desc: desc issued at 2020-01-01",
        LogEntry.success "Concept: water (http://x/c2)",
        LogEntry.success "  Label en: water"] := by decide

/-- Counterexample to claim C5: in the AGROVOC command the keyword
`save()` (line 217) is not inside any `try`, so a duplicate/integrity
failure saving the first concept keyword aborts the whole run: the run
ends fatally and the second (perfectly saveable) concept is never
processed. -/
theorem agrovoc_keyword_save_failure_aborts :
    c5Run.fatal = some "IntegrityError: could not save ThesaurusKeyword" ∧
      c5Run.keywords = [] ∧ c5Run.labels = [] ∧
      c5Run.createdKeywords.map TKRec.about = ["c1"] := by decide

/-- Claim C5 as amended: in the AGROVOC command only label saves are
guarded — the persisted labels are exactly the constructed labels whose
save succeeds, and the label-save oracle has no influence on the run's
fatal outcome, constructed labels, or keywords (a failing label save
skips just that record); a keyword save failure, by contrast, aborts the
run (see the counterexample).  In the GEMET command keyword and label
saves sit in one per-concept guard: no keyword or label save failure ever
changes the run's fatal outcome or which concept keywords are
constructed. -/
theorem save_failure_isolation :
    (∀ (g : AgrovocGraph) (o : AgrovocOptions) (store : Bool)
        (thOk : ThesaurusRec → Bool) (kok : TKRec → Bool) (lok lok2 : TKLRec → Bool),
      (agrovoc_load_thesaurus g o store thOk kok lok).labels =
          (agrovoc_load_thesaurus g o store thOk kok lok).createdLabels.filter
            (fun t => store && lok t) ∧
        (agrovoc_load_thesaurus g o store thOk kok lok).fatal =
            (agrovoc_load_thesaurus g o store thOk kok lok2).fatal ∧
          (agrovoc_load_thesaurus g o store thOk kok lok).createdLabels =
              (agrovoc_load_thesaurus g o store thOk kok lok2).createdLabels ∧
            (agrovoc_load_thesaurus g o store thOk kok lok).keywords =
              (agrovoc_load_thesaurus g o store thOk kok lok2).keywords) ∧
      (∀ (g : GemetGraph) (o : GemetOptions) (store : Bool)
          (thOk : ThesaurusRec → Bool) (kok1 kok2 : TKRec → Bool)
          (lok1 lok2 : TKLRec → Bool),
        (gemet_load_thesaurus g o store thOk kok1 lok1).fatal =
            (gemet_load_thesaurus g o store thOk kok2 lok2).fatal ∧
          (gemet_load_thesaurus g o store thOk kok1 lok1).createdKeywords =
            (gemet_load_thesaurus g o store thOk kok2 lok2).createdKeywords) := by
  constructor
  · intro g o store thOk kok lok lok2
    unfold agrovoc_load_thesaurus
    cases hr : agrovocResolveThesaurus g o.name o.title o.defaultlang with
    | error e => simp
    | ok pr =>
      obtain ⟨th, lg⟩ := pr
      by_cases hth : (store && !(thOk th)) = true
      · simp [hth]
      · have hth2 : (store && !(thOk th)) = false := by simpa using hth
        simp only [hth2, Bool.false_eq_true, if_false]
        exact ⟨agCL_labels_filter store o.lower_case o.defaultlang kok lok th g.concepts,
          (agCL_lok_indep store o.lower_case o.defaultlang kok lok lok2 th g.concepts).2.2.2,
          (agCL_lok_indep store o.lower_case o.defaultlang kok lok lok2 th g.concepts).2.2.1,
          (agCL_lok_indep store o.lower_case o.defaultlang kok lok lok2 th g.concepts).1⟩
  · intro g o store thOk kok1 kok2 lok1 lok2
    unfold gemet_load_thesaurus
    cases hr : gemetResolveThesaurus g o.name o.defaultlang with
    | error e => simp
    | ok pr =>
      obtain ⟨th, lg⟩ := pr
      by_cases hth : (store && !(thOk th)) = true
      · simp [hth]
      · have hth2 : (store && !(thOk th)) = false := by simpa using hth
        simp only [hth2, Bool.false_eq_true, if_false]
        constructor
        · rw [gemCL_fatal_none, gemCL_fatal_none]
        · exact gemCL_ck_indep store o.lower_case o.defaultlang kok1 kok2 lok1 lok2 th
            g.concepts

theorem all_filter_of_all {α : Type} (p q : α → Bool) (l : List α)
    (h : l.all p = true) : (l.filter q).all p = true := by
  simp only [List.all_eq_true] at h ⊢
  intro a ha
  exact h a (List.mem_of_mem_filter ha)

theorem gemCL_labels_filter (store lower_case : Bool) (dl : String)
    (kok : TKRec → Bool) (lok : TKLRec → Bool) (th : ThesaurusRec)
    (cs : List GemetConcept) :
    (gemetConceptLoop store lower_case dl kok lok th cs).labels =
      (gemetConceptLoop store lower_case dl kok lok th cs).createdLabels.filter
        (fun t => store && lok t) := by
  induction cs with
  | nil => simp [gemetConceptLoop]
  | cons concept rest ih =>
    simp only [gemetConceptLoop]
    cases hd : preferredLabel concept.labels (some dl) with
    | nil => exact ih
    | cons pr rest2 =>
      obtain ⟨p, lit⟩ := pr
      by_cases hkw : (store && !(kok ⟨th, apply_lower_case concept.uri lower_case,
          apply_lower_case lit.text lower_case⟩)) = true
      · simpa [hkw] using ih
      · have hkw2 : (store && !(kok ⟨th, apply_lower_case concept.uri lower_case,
            apply_lower_case lit.text lower_case⟩)) = false := by simpa using hkw
        simp only [hkw2, Bool.false_eq_true, if_false]
        simp only [List.filter_append]
        rw [gemLL_persisted_filter store lower_case lok _ _, ih]

/-- Counterexample to claim C6: with `--force-lower-case`, a label literal
whose tag as received is `EN` — not a member of the supported set — still
produces a persisted `ThesaurusKeywordLabel` (with `lang = "en"`), because
the whitelist test runs on the folded tag. -/
theorem folded_tag_passes_whitelist :
    SUPPORTED_LANGUAGES.contains "EN" = false ∧
      c6Run.labels.map TKLRec.lang = ["en", "en"] ∧
      c6Run.labels.map TKLRec.label = ["wasser", "water"] ∧
      c6Run.fatal = none := by decide

/-- Claim C6 as amended: every constructed and every persisted
`ThesaurusKeywordLabel` has a `lang` in the supported set
`{fr, de, en, it, es}` — but membership is decided on the *optionally
case-folded* tag, so a literal is dropped exactly when its folded tag is
outside the set (with folding enabled, a tag such as `EN` is persisted as
`en` rather than dropped). -/
theorem persisted_label_lang_supported :
    (∀ (g : AgrovocGraph) (o : AgrovocOptions) (store : Bool)
        (thOk : ThesaurusRec → Bool) (kok : TKRec → Bool) (lok : TKLRec → Bool),
      ((agrovoc_load_thesaurus g o store thOk kok lok).createdLabels.all
          (fun t => SUPPORTED_LANGUAGES.contains t.lang)) = true ∧
        ((agrovoc_load_thesaurus g o store thOk kok lok).labels.all
          (fun t => SUPPORTED_LANGUAGES.contains t.lang)) = true) ∧
      (∀ (g : GemetGraph) (o : GemetOptions) (store : Bool)
          (thOk : ThesaurusRec → Bool) (kok : TKRec → Bool) (lok : TKLRec → Bool),
        ((gemet_load_thesaurus g o store thOk kok lok).createdLabels.all
            (fun t => SUPPORTED_LANGUAGES.contains t.lang)) = true ∧
          ((gemet_load_thesaurus g o store thOk kok lok).labels.all
            (fun t => SUPPORTED_LANGUAGES.contains t.lang)) = true) := by
  constructor
  · intro g o store thOk kok lok
    unfold agrovoc_load_thesaurus
    cases hr : agrovocResolveThesaurus g o.name o.title o.defaultlang with
    | error e => simp
    | ok pr =>
      obtain ⟨th, lg⟩ := pr
      by_cases hth : (store && !(thOk th)) = true
      · simp [hth]
      · have hth2 : (store && !(thOk th)) = false := by simpa using hth
        simp only [hth2, Bool.false_eq_true, if_false]
        refine ⟨agCL_lang_supported store o.lower_case o.defaultlang kok lok th g.concepts, ?_⟩
        rw [agCL_labels_filter store o.lower_case o.defaultlang kok lok th g.concepts]
        exact all_filter_of_all _ _ _
          (agCL_lang_supported store o.lower_case o.defaultlang kok lok th g.concepts)
  · intro g o store thOk kok lok
    unfold gemet_load_thesaurus
    cases hr : gemetResolveThesaurus g o.name o.defaultlang with
    | error e => simp
    | ok pr =>
      obtain ⟨th, lg⟩ := pr
      by_cases hth : (store && !(thOk th)) = true
      · simp [hth]
      · have hth2 : (store && !(thOk th)) = false := by simpa using hth
        simp only [hth2, Bool.false_eq_true, if_false]
        refine ⟨gemCL_lang_supported store o.lower_case o.defaultlang kok lok th g.concepts, ?_⟩
        rw [gemCL_labels_filter store o.lower_case o.defaultlang kok lok th g.concepts]
        exact all_filter_of_all _ _ _
          (gemCL_lang_supported store o.lower_case o.defaultlang kok lok th g.concepts)

/-- Counterexample to claim C7: on a concept whose labels are tagged `EN`
and `en`, a run with `--force-lower-case` selects and persists TWO label
records while the run without it selects only one — the whitelist test
runs on the folded tag, so folding changes which (concept, language)
label pairs are selected. -/
theorem case_folding_changes_selection :
    c7RunT.createdLabels.map TKLRec.lang = ["en", "en"] ∧
      c7RunF.createdLabels.map TKLRec.lang = ["en"] ∧
      c7RunT.labels.length = 2 ∧ c7RunF.labels.length = 1 := by decide

/-- Claim C7 as amended: enabling case-folding lower-cases the persisted
`about`, `alt_label` and `label` fields, but the whitelist test runs on
the folded tag, so the selected label set can differ (see the
counterexample).  When every label tag in the graph is already an
all-lower-case string (and saves succeed, so that no failure aborts
processing), a run with `--force-lower-case` selects exactly the same
sequence of (concept, language) label pairs as a run without it: same
language per label record, labels and concept URIs equal up to
lower-casing. -/
theorem case_folding_preserves_selection_when_tags_lower :
    (∀ (g : AgrovocGraph) (o : AgrovocOptions) (store : Bool)
        (thOk : ThesaurusRec → Bool) (kok : TKRec → Bool) (lok : TKLRec → Bool),
      (∀ k, kok k = true) →
      (g.concepts.all fun c => c.prefLabelNodes.all
          fun n => lowerTagged (wrapLiteral n.literalForm).language) = true →
      (agrovoc_load_thesaurus g { o with lower_case := true } store thOk kok
            lok).createdLabels.map TKLRec.lang =
          (agrovoc_load_thesaurus g { o with lower_case := false } store thOk kok
            lok).createdLabels.map TKLRec.lang ∧
        (agrovoc_load_thesaurus g { o with lower_case := true } store thOk kok
              lok).createdLabels.map TKLRec.label =
          ((agrovoc_load_thesaurus g { o with lower_case := false } store thOk kok
              lok).createdLabels.map TKLRec.label).map strLower ∧
        (agrovoc_load_thesaurus g { o with lower_case := true } store thOk kok
              lok).createdKeywords.map TKRec.about =
          ((agrovoc_load_thesaurus g { o with lower_case := false } store thOk kok
              lok).createdKeywords.map TKRec.about).map strLower) ∧
      (∀ (g : GemetGraph) (o : GemetOptions) (store : Bool)
          (thOk : ThesaurusRec → Bool) (kok : TKRec → Bool) (lok : TKLRec → Bool),
        (∀ k, kok k = true) → (∀ t, lok t = true) →
        (g.concepts.all fun c =>
            (c.labels.prefLabels.all fun l => lowerTagged l.language) &&
              (c.labels.rdfsLabels.all fun l => lowerTagged l.language)) = true →
        (gemet_load_thesaurus g { o with lower_case := true } store thOk kok
              lok).createdLabels.map TKLRec.lang =
            (gemet_load_thesaurus g { o with lower_case := false } store thOk kok
              lok).createdLabels.map TKLRec.lang ∧
          (gemet_load_thesaurus g { o with lower_case := true } store thOk kok
                lok).createdLabels.map TKLRec.label =
            ((gemet_load_thesaurus g { o with lower_case := false } store thOk kok
                lok).createdLabels.map TKLRec.label).map strLower ∧
          (gemet_load_thesaurus g { o with lower_case := true } store thOk kok
                lok).createdKeywords.map TKRec.about =
            ((gemet_load_thesaurus g { o with lower_case := false } store thOk kok
                lok).createdKeywords.map TKRec.about).map strLower) := by
  constructor
  · intro g o store thOk kok lok hk hcs
    obtain ⟨n, t, d, dl, lc⟩ := o
    unfold agrovoc_load_thesaurus
    cases hr : agrovocResolveThesaurus g n t dl with
    | error e => simp
    | ok pr =>
      obtain ⟨th, lg⟩ := pr
      by_cases hth : (store && !(thOk th)) = true
      · simp [hth]
      · have hth2 : (store && !(thOk th)) = false := by simpa using hth
        simp only [hth2, Bool.false_eq_true, if_false]
        exact agCL_fold_selection store dl kok lok th th g.concepts hk hcs
  · intro g o store thOk kok lok hk hl hcs
    obtain ⟨n, dl, lc⟩ := o
    unfold gemet_load_thesaurus
    cases hr : gemetResolveThesaurus g n dl with
    | error e => simp
    | ok pr =>
      obtain ⟨th, lg⟩ := pr
      by_cases hth : (store && !(thOk th)) = true
      · simp [hth]
      · have hth2 : (store && !(thOk th)) = false := by simpa using hth
        simp only [hth2, Bool.false_eq_true, if_false]
        exact gemCL_fold_selection store dl kok lok th th g.concepts hk hl hcs

/-- Witness for the amended claim C7 at concrete inputs with all-lower
tags and all-succeeding saves. -/
theorem case_folding_preserves_selection_when_tags_lower_witness :
    ((c7wAgGraph.concepts.all fun c => c.prefLabelNodes.all
        fun n => lowerTagged (wrapLiteral n.literalForm).language) = true ∧
      (agrovoc_load_thesaurus c7wAgGraph
            { (⟨"n", "t", "d", "en", false⟩ : AgrovocOptions) with lower_case := true }
            true (fun _ => true) (fun _ => true)
            (fun _ => true)).createdLabels.map TKLRec.lang =
          (agrovoc_load_thesaurus c7wAgGraph
            { (⟨"n", "t", "d", "en", false⟩ : AgrovocOptions) with lower_case := false }
            true (fun _ => true) (fun _ => true)
            (fun _ => true)).createdLabels.map TKLRec.lang ∧
        (agrovoc_load_thesaurus c7wAgGraph
              { (⟨"n", "t", "d", "en", false⟩ : AgrovocOptions) with lower_case := true }
              true (fun _ => true) (fun _ => true)
              (fun _ => true)).createdLabels.map TKLRec.label =
          ((agrovoc_load_thesaurus c7wAgGraph
              { (⟨"n", "t", "d", "en", false⟩ : AgrovocOptions) with lower_case := false }
              true (fun _ => true) (fun _ => true)
              (fun _ => true)).createdLabels.map TKLRec.label).map strLower ∧
        (agrovoc_load_thesaurus c7wAgGraph
              { (⟨"n", "t", "d", "en", false⟩ : AgrovocOptions) with lower_case := true }
              true (fun _ => true) (fun _ => true)
              (fun _ => true)).createdKeywords.map TKRec.about =
          ((agrovoc_load_thesaurus c7wAgGraph
              { (⟨"n", "t", "d", "en", false⟩ : AgrovocOptions) with lower_case := false }
              true (fun _ => true) (fun _ => true)
              (fun _ => true)).createdKeywords.map TKRec.about).map strLower) ∧
      ((c7wGemGraph.concepts.all fun c =>
          (c.labels.prefLabels.all fun l => lowerTagged l.language) &&
            (c.labels.rdfsLabels.all fun l => lowerTagged l.language)) = true ∧
        (gemet_load_thesaurus c7wGemGraph
              { (⟨"n", "en", false⟩ : GemetOptions) with lower_case := true }
              true (fun _ => true) (fun _ => true)
              (fun _ => true)).createdLabels.map TKLRec.lang =
          (gemet_load_thesaurus c7wGemGraph
              { (⟨"n", "en", false⟩ : GemetOptions) with lower_case := false }
              true (fun _ => true) (fun _ => true)
              (fun _ => true)).createdLabels.map TKLRec.lang) :=
  ⟨⟨by decide,
    case_folding_preserves_selection_when_tags_lower.1 c7wAgGraph
      ⟨"n", "t", "d", "en", false⟩ true (fun _ => true) (fun _ => true) (fun _ => true)
      (fun _ => rfl) (by decide)⟩,
   ⟨by decide,
    (case_folding_preserves_selection_when_tags_lower.2 c7wGemGraph
      ⟨"n", "en", false⟩ true (fun _ => true) (fun _ => true) (fun _ => true)
      (fun _ => rfl) (fun _ => rfl) (by decide)).1⟩⟩

/-- Claim C8: a dry run (`store = false`, i.e. `--dry-run`) performs every
parsing and resolution step — its log output and fatal outcome are
exactly those of a wet run in which every save succeeds — but persists
nothing: no Thesaurus, ThesaurusKeyword or ThesaurusKeywordLabel record. -/
theorem dry_run_persists_nothing :
    (∀ (g : AgrovocGraph) (o : AgrovocOptions) (thOk : ThesaurusRec → Bool)
        (kok : TKRec → Bool) (lok : TKLRec → Bool),
      (agrovoc_load_thesaurus g o false thOk kok lok).thesauri = [] ∧
        (agrovoc_load_thesaurus g o false thOk kok lok).keywords = [] ∧
        (agrovoc_load_thesaurus g o false thOk kok lok).labels = [] ∧
        (agrovoc_load_thesaurus g o false thOk kok lok).logs =
          (agrovoc_load_thesaurus g o true (fun _ => true) (fun _ => true)
            (fun _ => true)).logs ∧
        (agrovoc_load_thesaurus g o false thOk kok lok).fatal =
          (agrovoc_load_thesaurus g o true (fun _ => true) (fun _ => true)
            (fun _ => true)).fatal) ∧
      (∀ (g : GemetGraph) (o : GemetOptions) (thOk : ThesaurusRec → Bool)
          (kok : TKRec → Bool) (lok : TKLRec → Bool),
        (gemet_load_thesaurus g o false thOk kok lok).thesauri = [] ∧
          (gemet_load_thesaurus g o false thOk kok lok).keywords = [] ∧
          (gemet_load_thesaurus g o false thOk kok lok).labels = [] ∧
          (gemet_load_thesaurus g o false thOk kok lok).logs =
            (gemet_load_thesaurus g o true (fun _ => true) (fun _ => true)
              (fun _ => true)).logs ∧
          (gemet_load_thesaurus g o false thOk kok lok).fatal =
            (gemet_load_thesaurus g o true (fun _ => true) (fun _ => true)
              (fun _ => true)).fatal) := by
  constructor
  · intro g o thOk kok lok
    unfold agrovoc_load_thesaurus
    cases hr : agrovocResolveThesaurus g o.name o.title o.defaultlang with
    | error e => simp
    | ok pr =>
      obtain ⟨th, lg⟩ := pr
      refine ⟨rfl, agCL_dry_keywords o.lower_case o.defaultlang kok lok th g.concepts,
        ?_, ?_, ?_⟩
      · show (agrovocConceptLoop false o.lower_case o.defaultlang kok lok th
          g.concepts).labels = []
        rw [agCL_labels_filter]
        simp
      · show _ ++ _ = _ ++ _
        rw [(agCL_logs_fatal o.lower_case o.defaultlang kok lok th g.concepts).1]
      · show (agrovocConceptLoop false o.lower_case o.defaultlang kok lok th
            g.concepts).fatal =
          (agrovocConceptLoop true o.lower_case o.defaultlang (fun _ => true)
            (fun _ => true) th g.concepts).fatal
        exact (agCL_logs_fatal o.lower_case o.defaultlang kok lok th g.concepts).2
  · intro g o thOk kok lok
    unfold gemet_load_thesaurus
    cases hr : gemetResolveThesaurus g o.name o.defaultlang with
    | error e => simp
    | ok pr =>
      obtain ⟨th, lg⟩ := pr
      refine ⟨rfl, (gemCL_dry o.lower_case o.defaultlang kok lok th g.concepts).1,
        (gemCL_dry o.lower_case o.defaultlang kok lok th g.concepts).2, ?_, ?_⟩
      · show _ ++ _ = _ ++ _
        rw [gemCL_logs o.lower_case o.defaultlang kok lok th g.concepts]
      · show (gemetConceptLoop false o.lower_case o.defaultlang kok lok th
            g.concepts).fatal =
          (gemetConceptLoop true o.lower_case o.defaultlang (fun _ => true)
            (fun _ => true) th g.concepts).fatal
        rw [gemCL_fatal_none, gemCL_fatal_none]

/-- Claim C9 (code defect): the `--description` argument value is never
consulted: line 178 of the AGROVOC command rebinds `description` to the
scheme's `dc:description` (defaulting to the resolved title), so two runs
differing only in the `--description` value are identical, and on a
scheme with no description literal the persisted description equals the
resolved title, not the `--description` value. -/
theorem description_argument_ignored :
    (∀ (g : AgrovocGraph) (n t d1 d2 dl : String) (lc store : Bool)
        (thOk : ThesaurusRec → Bool) (kok : TKRec → Bool) (lok : TKLRec → Bool),
      agrovoc_load_thesaurus g ⟨n, t, d1, dl, lc⟩ store thOk kok lok =
        agrovoc_load_thesaurus g ⟨n, t, d2, dl, lc⟩ store thOk kok lok) ∧
      c9Run.thesauri.map ThesaurusRec.description = ["Resolved Title"] ∧
      ("Resolved Title" : String) ≠ "custom description from flag" :=
  ⟨fun _ _ _ _ _ _ _ _ _ _ _ => rfl, by decide, by decide⟩

/-- Claim C10: the persisted Thesaurus record is identical whether or not
`--force-lower-case` is set (its title, description, about and date are
never folded), while in a folded run every constructed ThesaurusKeyword
`about`/`alt_label` and every constructed ThesaurusKeywordLabel
`lang`/`label` is the lower-casing of some string. -/
theorem thesaurus_fields_not_folded :
    (∀ (g : AgrovocGraph) (n t d dl : String) (b1 b2 store : Bool)
        (thOk : ThesaurusRec → Bool) (kok : TKRec → Bool) (lok : TKLRec → Bool),
      (agrovoc_load_thesaurus g ⟨n, t, d, dl, b1⟩ store thOk kok lok).thesauri =
        (agrovoc_load_thesaurus g ⟨n, t, d, dl, b2⟩ store thOk kok lok).thesauri) ∧
      (∀ (g : GemetGraph) (n dl : String) (b1 b2 store : Bool)
          (thOk : ThesaurusRec → Bool) (kok : TKRec → Bool) (lok : TKLRec → Bool),
        (gemet_load_thesaurus g ⟨n, dl, b1⟩ store thOk kok lok).thesauri =
          (gemet_load_thesaurus g ⟨n, dl, b2⟩ store thOk kok lok).thesauri) ∧
      (∀ (g : AgrovocGraph) (o : AgrovocOptions) (store : Bool)
          (thOk : ThesaurusRec → Bool) (kok : TKRec → Bool) (lok : TKLRec → Bool),
        (∀ k ∈ (agrovoc_load_thesaurus g { o with lower_case := true } store thOk kok
            lok).createdKeywords,
          (∃ u, k.about = strLower u) ∧ (∃ u, k.alt_label = strLower u)) ∧
          (∀ tkl ∈ (agrovoc_load_thesaurus g { o with lower_case := true } store thOk kok
              lok).createdLabels,
            (∃ u, tkl.lang = strLower u) ∧ (∃ u, tkl.label = strLower u))) ∧
      (∀ (g : GemetGraph) (o : GemetOptions) (store : Bool)
          (thOk : ThesaurusRec → Bool) (kok : TKRec → Bool) (lok : TKLRec → Bool),
        (∀ k ∈ (gemet_load_thesaurus g { o with lower_case := true } store thOk kok
            lok).createdKeywords,
          (∃ u, k.about = strLower u) ∧ (∃ u, k.alt_label = strLower u)) ∧
          (∀ tkl ∈ (gemet_load_thesaurus g { o with lower_case := true } store thOk kok
              lok).createdLabels,
            (∃ u, tkl.lang = strLower u) ∧ (∃ u, tkl.label = strLower u))) := by
  refine ⟨?_, ?_, ?_, ?_⟩
  · intro g n t d dl b1 b2 store thOk kok lok
    unfold agrovoc_load_thesaurus
    cases hr : agrovocResolveThesaurus g n t dl with
    | error e => simp
    | ok pr =>
      obtain ⟨th, lg⟩ := pr
      by_cases hth : (store && !(thOk th)) = true
      · simp [hth]
      · have hth2 : (store && !(thOk th)) = false := by simpa using hth
        simp only [hth2, Bool.false_eq_true, if_false]
  · intro g n dl b1 b2 store thOk kok lok
    unfold gemet_load_thesaurus
    cases hr : gemetResolveThesaurus g n dl with
    | error e => simp
    | ok pr =>
      obtain ⟨th, lg⟩ := pr
      by_cases hth : (store && !(thOk th)) = true
      · simp [hth]
      · have hth2 : (store && !(thOk th)) = false := by simpa using hth
        simp only [hth2, Bool.false_eq_true, if_false]
  · intro g o store thOk kok lok
    obtain ⟨n, t, d, dl, lc⟩ := o
    unfold agrovoc_load_thesaurus
    cases hr : agrovocResolveThesaurus g n t dl with
    | error e => simp
    | ok pr =>
      obtain ⟨th, lg⟩ := pr
      by_cases hth : (store && !(thOk th)) = true
      · simp [hth]
      · have hth2 : (store && !(thOk th)) = false := by simpa using hth
        simp only [hth2, Bool.false_eq_true, if_false]
        exact agCL_folded store dl kok lok th g.concepts
  · intro g o store thOk kok lok
    obtain ⟨n, dl, lc⟩ := o
    unfold gemet_load_thesaurus
    cases hr : gemetResolveThesaurus g n dl with
    | error e => simp
    | ok pr =>
      obtain ⟨th, lg⟩ := pr
      by_cases hth : (store && !(thOk th)) = true
      · simp [hth]
      · have hth2 : (store && !(thOk th)) = false := by simpa using hth
        simp only [hth2, Bool.false_eq_true, if_false]
        exact gemCL_folded store dl kok lok th g.concepts

/-- Witness for claim C10 at concrete inputs. -/
theorem thesaurus_fields_not_folded_witness :
    ((agrovoc_load_thesaurus c10AgGraph ⟨"n", "t", "d", "en", true⟩ true
        (fun _ => true) (fun _ => true) (fun _ => true)).thesauri =
      (agrovoc_load_thesaurus c10AgGraph ⟨"n", "t", "d", "en", false⟩ true
        (fun _ => true) (fun _ => true) (fun _ => true)).thesauri) ∧
      ((gemet_load_thesaurus c10GemGraph ⟨"n", "en", true⟩ true
          (fun _ => true) (fun _ => true) (fun _ => true)).thesauri =
        (gemet_load_thesaurus c10GemGraph ⟨"n", "en", false⟩ true
          (fun _ => true) (fun _ => true) (fun _ => true)).thesauri) ∧
      ((⟨⟨"n", "d", "T", "s", "2024-05-01T00:00:00"⟩, "c1", "water"⟩ : TKRec) ∈
          (agrovoc_load_thesaurus c10AgGraph
            { (⟨"n", "t", "d", "en", false⟩ : AgrovocOptions) with lower_case := true }
            true (fun _ => true) (fun _ => true) (fun _ => true)).createdKeywords ∧
        (∃ u, ("c1" : String) = strLower u) ∧ (∃ u, ("water" : String) = strLower u)) :=
  ⟨thesaurus_fields_not_folded.1 c10AgGraph "n" "t" "d" "en" true false true
      (fun _ => true) (fun _ => true) (fun _ => true),
   (thesaurus_fields_not_folded.2.1 c10GemGraph "n" "en" true false true
      (fun _ => true) (fun _ => true) (fun _ => true)),
   by decide,
   (thesaurus_fields_not_folded.2.2.1 c10AgGraph ⟨"n", "t", "d", "en", false⟩ true
      (fun _ => true) (fun _ => true) (fun _ => true)).1
     ⟨⟨"n", "d", "T", "s", "2024-05-01T00:00:00"⟩, "c1", "water"⟩ (by decide)⟩
